import Mathlib

/-!
# Verification of the proton-drive-sync job queue and sync engine

A shallow embedding of the sync-engine core of `proton-drive-sync`:

* `src/jobs.ts` — the job queue (enqueue, fetch, terminal transitions,
  retry scheduling, error classification);
* `src/signals.ts` — the durable signal queue and its polling loop;
* `src/sync/engine.ts` — the batched file-change translator
  (rename/move detection, hash-based no-op suppression, purging).

Database tables are modelled as Lean lists of rows; timestamps are rational
numbers of milliseconds (`Math.random()` jitter makes delays fractional);
strings are lists of characters.  `db.insert` against a unique index is
modelled as an `Except`-valued insert that errors on a key collision.
-/

namespace ProtonDriveSync

/-- Strings of the source are modelled as lists of characters. -/
abbrev Str := List Char

-- ===========================================================================
-- db/schema.ts
-- ===========================================================================

/-- `SyncJobStatus` from `src/db/schema.ts`. -/
inductive SyncJobStatus
  | PENDING
  | PROCESSING
  | SYNCED
  | BLOCKED
  deriving DecidableEq, Repr

/-- `SyncEventType`: the original schema lists CREATE/UPDATE/DELETE and the
content-hash migration era of the engine adds RENAME and MOVE
(`src/sync/engine.ts` enqueues all five). -/
inductive SyncEventType
  | CREATE
  | UPDATE
  | DELETE
  | RENAME
  | MOVE
  deriving DecidableEq, Repr

/-- A row of the `sync_jobs` table (`src/db/schema.ts`, `syncJobs`, plus the
columns added by the content-hash migration).  `retryAt`/`createdAt` are
timestamps in milliseconds. -/
structure SyncJob where
  id : Nat
  eventType : SyncEventType
  localPath : Str
  remotePath : Str
  status : SyncJobStatus
  retryAt : ℚ
  nRetries : Nat
  lastError : Option Str
  createdAt : ℚ
  deriving DecidableEq, Repr

-- ===========================================================================
-- jobs.ts : constants
-- ===========================================================================

/-- `RETRY_DELAYS_SEC` from `src/jobs.ts` (seconds, ×4 exponential backoff,
capped at ~1 week). -/
def RETRY_DELAYS_SEC : List ℚ :=
  [1, 4, 16, 64, 256, 1024, 4096, 16384, 65536, 262144, 604800]

/-- `MAX_RETRIES = RETRY_DELAYS_SEC.length` from `src/jobs.ts`. -/
def MAX_RETRIES : Nat := RETRY_DELAYS_SEC.length

/-- `JITTER_FACTOR = 0.25` from `src/jobs.ts`. -/
def JITTER_FACTOR : ℚ := 1 / 4

/-- `NETWORK_RETRY_CAP_INDEX = 4` from `src/jobs.ts` (index of 256 s). -/
def NETWORK_RETRY_CAP_INDEX : Nat := 4

-- ===========================================================================
-- jobs.ts : enqueueJob
-- ===========================================================================

/-- The parameter record taken by `enqueueJob` in `src/jobs.ts`. -/
structure EnqueueParams where
  eventType : SyncEventType
  localPath : Str
  remotePath : Str
  deriving DecidableEq, Repr

/-- `enqueueJob` from `src/jobs.ts`: a no-op when `dryRun`, otherwise a plain
`db.insert(schema.syncJobs).values({...}).run()` of a PENDING row with
`retryAt = new Date()` (i.e. now), `nRetries = 0`, `lastError = null`.
The insert has no conflict clause, so when the table already holds a row with
the same unique key — `(local_path, remote_path)`, the composite unique index
`idx_sync_jobs_local_remote` of the overlapping-sync-dirs migration — SQLite
raises a uniqueness violation, modelled as `Except.error ()`.
`freshId` stands for the autoincrement id. -/
def enqueueJob (params : EnqueueParams) (dryRun : Bool) (now : ℚ) (freshId : Nat)
    (tbl : List SyncJob) : Except Unit (List SyncJob) :=
  if dryRun then .ok tbl
  else if tbl.any (fun j =>
      decide (j.localPath = params.localPath ∧ j.remotePath = params.remotePath)) then
    .error ()
  else
    .ok (tbl ++ [{ id := freshId
                   eventType := params.eventType
                   localPath := params.localPath
                   remotePath := params.remotePath
                   status := .PENDING
                   retryAt := now
                   nRetries := 0
                   lastError := none
                   createdAt := now }])

-- ===========================================================================
-- jobs.ts : getNextPendingJob
-- ===========================================================================

/-- The accumulator step realising `orderBy(retryAt).limit(1)`: keep the row
with the smallest `retryAt` (the first such row on ties, matching a stable
ascending sort). -/
def pickMinRetry (acc : Option SyncJob) (j : SyncJob) : Option SyncJob :=
  match acc with
  | none => some j
  | some b => if j.retryAt < b.retryAt then some j else acc

/-- `getNextPendingJob` from `src/jobs.ts`: select from `sync_jobs` where
`status = PENDING` and `retryAt <= now`, order by `retryAt` ascending,
limit 1. -/
def getNextPendingJob (tbl : List SyncJob) (now : ℚ) : Option SyncJob :=
  (tbl.filter (fun j => decide (j.status = .PENDING ∧ j.retryAt ≤ now))).foldl
    pickMinRetry none

-- ===========================================================================
-- jobs.ts : markJobSynced / markJobBlocked
-- ===========================================================================

/-- `markJobSynced` from `src/jobs.ts`: no-op when `dryRun`, otherwise
`update syncJobs set {status: SYNCED, lastError: null} where id = jobId`. -/
def markJobSynced (jobId : Nat) (dryRun : Bool) (tbl : List SyncJob) : List SyncJob :=
  if dryRun then tbl
  else tbl.map (fun j =>
    if j.id = jobId then { j with status := .SYNCED, lastError := none } else j)

/-- `markJobBlocked` from `src/jobs.ts`: no-op when `dryRun`, otherwise
`update syncJobs set {status: BLOCKED, lastError: error} where id = jobId`. -/
def markJobBlocked (jobId : Nat) (error : Str) (dryRun : Bool)
    (tbl : List SyncJob) : List SyncJob :=
  if dryRun then tbl
  else tbl.map (fun j =>
    if j.id = jobId then { j with status := .BLOCKED, lastError := some error } else j)

-- ===========================================================================
-- jobs.ts : isNetworkError
-- ===========================================================================

/-- `error.toLowerCase()` restricted to the per-character lowering that agrees
with JavaScript on ASCII text. -/
def toLowerStr (s : Str) : Str := s.map Char.toLower

/-- `String.prototype.includes`: substring containment. -/
def containsSub (hay needle : Str) : Bool := decide (needle <:+: hay)

/-- The `networkPatterns` array from `isNetworkError` in `src/jobs.ts`. -/
def networkPatterns : List Str :=
  ["ECONNREFUSED".toList,
   "ECONNRESET".toList,
   "ETIMEDOUT".toList,
   "ENOTFOUND".toList,
   "EAI_AGAIN".toList,
   "ENETUNREACH".toList,
   "EHOSTUNREACH".toList,
   "socket hang up".toList,
   "network".toList,
   "timeout".toList,
   "connection".toList]

/-- `isNetworkError` from `src/jobs.ts`: lowercase the message and test
whether any (lowercased) pattern is a substring. -/
def isNetworkError (error : Str) : Bool :=
  let lowerError := toLowerStr error
  networkPatterns.any (fun pattern => containsSub lowerError (toLowerStr pattern))

-- ===========================================================================
-- jobs.ts : scheduleRetry
-- ===========================================================================

/-- The delay/retry-count computation of `scheduleRetry` in `src/jobs.ts`.
`rand` models the `Math.random()` draw (a value in `[0, 1)`). -/
structure RetrySchedule where
  delaySec : ℚ
  newRetries : Nat
  deriving DecidableEq, Repr

/-- The arithmetic core of `scheduleRetry` (`src/jobs.ts`):
`effectiveRetries = isNetworkError ? min(nRetries, NETWORK_RETRY_CAP_INDEX) : nRetries`,
`delayIndex = min(effectiveRetries, RETRY_DELAYS_SEC.length - 1)`,
`baseDelaySec = RETRY_DELAYS_SEC[delayIndex]`,
`jitterSec = baseDelaySec * JITTER_FACTOR * (rand * 2 - 1)`,
`delaySec = max(1, baseDelaySec + jitterSec)`,
`newRetries = isNetworkError ? min(nRetries + 1, NETWORK_RETRY_CAP_INDEX + 1) : nRetries + 1`. -/
def scheduleRetryCalc (nRetries : Nat) (isNetErr : Bool) (rand : ℚ) : RetrySchedule :=
  let effectiveRetries :=
    if isNetErr then min nRetries NETWORK_RETRY_CAP_INDEX else nRetries
  let delayIndex := min effectiveRetries (RETRY_DELAYS_SEC.length - 1)
  let baseDelaySec := RETRY_DELAYS_SEC.getD delayIndex 0
  let jitterSec := baseDelaySec * JITTER_FACTOR * (rand * 2 - 1)
  let delaySec := max 1 (baseDelaySec + jitterSec)
  let newRetries :=
    if isNetErr then min (nRetries + 1) (NETWORK_RETRY_CAP_INDEX + 1) else nRetries + 1
  { delaySec := delaySec, newRetries := newRetries }

/-- `scheduleRetry` from `src/jobs.ts`: no-op when `dryRun`, otherwise update
the job row with the new retry count, `retryAt = now + delaySec * 1000` and
`lastError = error`.  `nowMs` models `Date.now()` and `rand` the
`Math.random()` draw. -/
def scheduleRetry (jobId : Nat) (nRetries : Nat) (error : Str) (isNetErr : Bool)
    (dryRun : Bool) (nowMs rand : ℚ) (tbl : List SyncJob) : List SyncJob :=
  if dryRun then tbl
  else
    let s := scheduleRetryCalc nRetries isNetErr rand
    tbl.map (fun j =>
      if j.id = jobId then
        { j with nRetries := s.newRetries
                 retryAt := nowMs + s.delaySec * 1000
                 lastError := some error }
      else j)

-- ===========================================================================
-- jobs.ts : processNextJob (failure branch)
-- ===========================================================================

/-- The `catch` branch of `processNextJob` in `src/jobs.ts`, applied to the
fetched `job` when its remote operation failed with `errorMessage`:
classify the error, then either `markJobBlocked` (non-network error with
`nRetries >= MAX_RETRIES`) or `scheduleRetry`. -/
def processJobFailure (job : SyncJob) (errorMessage : Str) (dryRun : Bool)
    (nowMs rand : ℚ) (tbl : List SyncJob) : List SyncJob :=
  let networkError := isNetworkError errorMessage
  if !networkError && decide (MAX_RETRIES ≤ job.nRetries) then
    markJobBlocked job.id errorMessage dryRun tbl
  else
    scheduleRetry job.id job.nRetries errorMessage networkError dryRun nowMs rand tbl

/-- The largest `retryAt` in the table (0 for the empty table): the time at
which every scheduled retry has come due.  Used to drive the retry-loop
simulation at the moment the job becomes eligible again. -/
def tableDueTime (tbl : List SyncJob) : ℚ :=
  tbl.foldl (fun a j => max a j.retryAt) 0

/-- One round of the daemon's processing loop in which the remote operation
fails with `msg`: run `processNextJob` (fetch via `getNextPendingJob`, then
take the failure branch) at the time the queue has come due. -/
def failRound (msg : Str) (rand : ℚ) (tbl : List SyncJob) : List SyncJob :=
  let now := tableDueTime tbl
  match getNextPendingJob tbl now with
  | none => tbl
  | some job => processJobFailure job msg false now rand tbl

/-- `n` consecutive failing rounds. -/
def failRounds (msg : Str) (rand : ℚ) : Nat → List SyncJob → List SyncJob
  | 0, tbl => tbl
  | n + 1, tbl => failRound msg rand (failRounds msg rand n tbl)

-- ===========================================================================
-- Helper lemmas: the `orderBy(retryAt).limit(1)` fold
-- ===========================================================================

theorem foldl_pickMinRetry_eq_some {l : List SyncJob} :
    ∀ {acc : Option SyncJob} {j : SyncJob},
      l.foldl pickMinRetry acc = some j → acc = some j ∨ j ∈ l := by
  induction l with
  | nil => intro acc j h; exact .inl h
  | cons x xs ih =>
    intro acc j h
    rcases @ih (pickMinRetry acc x) j h with h' | h'
    · cases acc with
      | none =>
        simp only [pickMinRetry] at h'
        exact .inr (by simp [← Option.some.injEq x j |>.mp h'])
      | some b =>
        simp only [pickMinRetry] at h'
        by_cases hlt : x.retryAt < b.retryAt
        · rw [if_pos hlt] at h'
          exact .inr (by simp [← Option.some.injEq x j |>.mp h'])
        · rw [if_neg hlt] at h'
          exact .inl h'
    · exact .inr (List.mem_cons_of_mem _ h')

theorem foldl_pickMinRetry_min {l : List SyncJob} :
    ∀ {acc : Option SyncJob} {j : SyncJob},
      l.foldl pickMinRetry acc = some j →
      (∀ b, acc = some b → j.retryAt ≤ b.retryAt) ∧
      (∀ k ∈ l, j.retryAt ≤ k.retryAt) := by
  induction l with
  | nil =>
    intro acc j h
    refine ⟨fun b hb => ?_, fun k hk => absurd hk (List.not_mem_nil k)⟩
    simp only [List.foldl_nil] at h
    rw [h] at hb
    cases hb
    exact le_refl _
  | cons x xs ih =>
    intro acc j h
    have H := @ih (pickMinRetry acc x) j h
    have hx : j.retryAt ≤ x.retryAt := by
      cases acc with
      | none => exact H.1 x rfl
      | some b =>
        by_cases hlt : x.retryAt < b.retryAt
        · exact H.1 x (by simp [pickMinRetry, if_pos hlt])
        · exact le_trans (H.1 b (by simp [pickMinRetry, if_neg hlt])) (not_lt.mp hlt)
    refine ⟨fun b hb => ?_, fun k hk => ?_⟩
    · subst hb
      by_cases hlt : x.retryAt < b.retryAt
      · exact le_trans hx (le_of_lt hlt)
      · exact H.1 b (by simp [pickMinRetry, if_neg hlt])
    · rcases List.mem_cons.mp hk with rfl | hk'
      · exact hx
      · exact H.2 k hk'

theorem foldl_pickMinRetry_isSome {l : List SyncJob} :
    ∀ {b : SyncJob}, (l.foldl pickMinRetry (some b)).isSome = true := by
  induction l with
  | nil => intro b; rfl
  | cons x xs ih =>
    intro b
    simp only [List.foldl_cons]
    by_cases hlt : x.retryAt < b.retryAt
    · rw [show pickMinRetry (some b) x = some x by simp [pickMinRetry, if_pos hlt]]
      exact ih
    · rw [show pickMinRetry (some b) x = some b by simp [pickMinRetry, if_neg hlt]]
      exact ih

theorem foldl_pickMinRetry_none_iff {l : List SyncJob} :
    l.foldl pickMinRetry none = none ↔ l = [] := by
  cases l with
  | nil => simp
  | cons x xs =>
    simp only [List.foldl_cons]
    rw [show pickMinRetry none x = some x from rfl]
    constructor
    · intro h
      have := @foldl_pickMinRetry_isSome xs x
      rw [h] at this
      cases this
    · intro h; cases h

-- ===========================================================================
-- C7
-- ===========================================================================

/-- C7: `getNextPendingJob` returns a PENDING job with `retryAt ≤ now` whose
`retryAt` is minimal among all such jobs, and `none` exactly when no PENDING
job is due; PROCESSING/SYNCED/BLOCKED jobs and future-dated jobs are never
returned. -/
theorem getNextPendingJob_spec (tbl : List SyncJob) (now : ℚ) :
    (∀ j, getNextPendingJob tbl now = some j →
        j ∈ tbl ∧ j.status = .PENDING ∧ j.retryAt ≤ now ∧
        ∀ k ∈ tbl, k.status = .PENDING → k.retryAt ≤ now → j.retryAt ≤ k.retryAt) ∧
    (getNextPendingJob tbl now = none ↔
        ∀ k ∈ tbl, ¬(k.status = .PENDING ∧ k.retryAt ≤ now)) := by
  constructor
  · intro j h
    unfold getNextPendingJob at h
    have hmem : j ∈ tbl.filter (fun j => decide (j.status = .PENDING ∧ j.retryAt ≤ now)) := by
      rcases foldl_pickMinRetry_eq_some h with h' | h'
      · cases h'
      · exact h'
    have hj := List.mem_filter.mp hmem
    have hprops : j.status = .PENDING ∧ j.retryAt ≤ now := of_decide_eq_true hj.2
    refine ⟨hj.1, hprops.1, hprops.2, fun k hk hks hkr => ?_⟩
    have hkmem : k ∈ tbl.filter (fun j => decide (j.status = .PENDING ∧ j.retryAt ≤ now)) :=
      List.mem_filter.mpr ⟨hk, decide_eq_true ⟨hks, hkr⟩⟩
    exact (foldl_pickMinRetry_min h).2 k hkmem
  · unfold getNextPendingJob
    rw [foldl_pickMinRetry_none_iff, List.filter_eq_nil_iff]
    constructor
    · intro h k hk hcontra
      exact h k hk (decide_eq_true hcontra)
    · intro h k hk hdec
      exact h k hk (of_decide_eq_true hdec)

/-- Demonstration table for the C7 witness: a due PENDING job, a later-due
PENDING job, a future PENDING job, and a due BLOCKED job. -/
def demoTblC7 : List SyncJob :=
  [{ id := 1, eventType := .CREATE, localPath := "/w/a".toList, remotePath := "w/a".toList,
     status := .PENDING, retryAt := 50, nRetries := 0, lastError := none, createdAt := 0 },
   { id := 2, eventType := .UPDATE, localPath := "/w/b".toList, remotePath := "w/b".toList,
     status := .PENDING, retryAt := 20, nRetries := 1, lastError := none, createdAt := 0 },
   { id := 3, eventType := .DELETE, localPath := "/w/c".toList, remotePath := "w/c".toList,
     status := .PENDING, retryAt := 500, nRetries := 0, lastError := none, createdAt := 0 },
   { id := 4, eventType := .CREATE, localPath := "/w/d".toList, remotePath := "w/d".toList,
     status := .BLOCKED, retryAt := 10, nRetries := 12, lastError := none, createdAt := 0 }]

theorem getNextPendingJob_spec_witness :
    demoTblC7[1] ∈ demoTblC7 ∧ demoTblC7[1].status = .PENDING ∧
    demoTblC7[1].retryAt ≤ 100 ∧
    ∀ k ∈ demoTblC7, k.status = .PENDING → k.retryAt ≤ 100 →
      demoTblC7[1].retryAt ≤ k.retryAt :=
  (getNextPendingJob_spec demoTblC7 100).1 demoTblC7[1] (by decide)

-- ===========================================================================
-- C10
-- ===========================================================================

/-- C10: `markJobSynced` with `dryRun = false` sets exactly the matching
job's `status` to SYNCED and its `lastError` to `null`, leaving its
`eventType`, `localPath`, `remotePath`, `retryAt`, `nRetries` and `createdAt`
— and every other row of the table — unchanged. -/
theorem markJobSynced_spec (jobId : Nat) (tbl : List SyncJob) :
    (markJobSynced jobId false tbl).length = tbl.length ∧
    ∀ i (h : i < tbl.length) (h' : i < (markJobSynced jobId false tbl).length),
      (((tbl.get ⟨i, h⟩).id = jobId →
        ((markJobSynced jobId false tbl).get ⟨i, h'⟩).status = .SYNCED ∧
        ((markJobSynced jobId false tbl).get ⟨i, h'⟩).lastError = none ∧
        ((markJobSynced jobId false tbl).get ⟨i, h'⟩).id = (tbl.get ⟨i, h⟩).id ∧
        ((markJobSynced jobId false tbl).get ⟨i, h'⟩).eventType = (tbl.get ⟨i, h⟩).eventType ∧
        ((markJobSynced jobId false tbl).get ⟨i, h'⟩).localPath = (tbl.get ⟨i, h⟩).localPath ∧
        ((markJobSynced jobId false tbl).get ⟨i, h'⟩).remotePath = (tbl.get ⟨i, h⟩).remotePath ∧
        ((markJobSynced jobId false tbl).get ⟨i, h'⟩).retryAt = (tbl.get ⟨i, h⟩).retryAt ∧
        ((markJobSynced jobId false tbl).get ⟨i, h'⟩).nRetries = (tbl.get ⟨i, h⟩).nRetries ∧
        ((markJobSynced jobId false tbl).get ⟨i, h'⟩).createdAt = (tbl.get ⟨i, h⟩).createdAt) ∧
      ((tbl.get ⟨i, h⟩).id ≠ jobId →
        (markJobSynced jobId false tbl).get ⟨i, h'⟩ = tbl.get ⟨i, h⟩)) := by
  constructor
  · simp [markJobSynced]
  · intro i h h'
    simp only [markJobSynced, if_neg (Bool.false_ne_true ∘ congrArg id), List.get_eq_getElem,
      Bool.false_eq_true, if_false, List.getElem_map]
    by_cases hid : tbl[i].id = jobId
    · simp [hid]
    · simp [hid]

/-- A two-row table for the C10 witness. -/
def demoTblC10 : List SyncJob :=
  [{ id := 7, eventType := .UPDATE, localPath := "/w/x".toList, remotePath := "w/x".toList,
     status := .PROCESSING, retryAt := 3, nRetries := 2, lastError := some ("boom").toList,
     createdAt := 1 },
   { id := 8, eventType := .DELETE, localPath := "/w/y".toList, remotePath := "w/y".toList,
     status := .PENDING, retryAt := 9, nRetries := 0, lastError := none, createdAt := 2 }]

theorem markJobSynced_spec_witness :
    ((markJobSynced 7 false demoTblC10).get ⟨0, by decide⟩).status = .SYNCED ∧
    ((markJobSynced 7 false demoTblC10).get ⟨0, by decide⟩).lastError = none ∧
    ((markJobSynced 7 false demoTblC10).get ⟨1, by decide⟩) = demoTblC10.get ⟨1, by decide⟩ := by
  have H := markJobSynced_spec 7 demoTblC10
  have H0 := (H.2 0 (by decide) (by rw [H.1]; decide)).1 (by decide)
  have H1 := (H.2 1 (by decide) (by rw [H.1]; decide)).2 (by decide)
  exact ⟨H0.1, H0.2.1, H1⟩

-- ===========================================================================
-- C1 : corrected
-- ===========================================================================

/-- A PENDING job occupying the `(localPath, remotePath)` key used in the
C1 counterexample. -/
def cexC1Job : SyncJob :=
  { id := 1, eventType := .UPDATE, localPath := "/w/a.txt".toList,
    remotePath := "w/a.txt".toList, status := .PENDING, retryAt := 0,
    nRetries := 0, lastError := none, createdAt := 0 }

/-- C1 counterexample: enqueueing (UPDATE, `/w/a.txt`, `w/a.txt`) with
`dryRun = false` while a PENDING job with the same `(localPath, remotePath)`
key exists does not replace the job — the plain `INSERT` hits the unique
index and raises a uniqueness error. -/
theorem enqueueJob_duplicate_raises :
    enqueueJob { eventType := .UPDATE, localPath := ("/w/a.txt").toList,
                 remotePath := ("w/a.txt").toList } false 5 2 [cexC1Job]
      = .error () := rfl

/-- C1 (amended): `enqueueJob` in `src/jobs.ts` performs a plain insert with
no conflict handling: when any job with the same `(localPath, remotePath)` key
exists the call raises a uniqueness error instead of replacing it, and when no
such job exists it appends a fresh PENDING job with `retryAt = now`,
`nRetries = 0`, `lastError = null`. -/
theorem enqueueJob_plain_insert (params : EnqueueParams) (now : ℚ) (freshId : Nat)
    (tbl : List SyncJob) :
    ((∃ j ∈ tbl, j.localPath = params.localPath ∧ j.remotePath = params.remotePath) →
       enqueueJob params false now freshId tbl = .error ()) ∧
    ((∀ j ∈ tbl, ¬(j.localPath = params.localPath ∧ j.remotePath = params.remotePath)) →
       enqueueJob params false now freshId tbl =
         .ok (tbl ++ [{ id := freshId, eventType := params.eventType,
                        localPath := params.localPath, remotePath := params.remotePath,
                        status := .PENDING, retryAt := now, nRetries := 0,
                        lastError := none, createdAt := now }])) := by
  constructor
  · rintro ⟨j, hj, hlp, hrp⟩
    simp only [enqueueJob, Bool.false_eq_true, if_false, List.any_eq_true, decide_eq_true_eq]
    rw [if_pos ⟨j, hj, hlp, hrp⟩]
  · intro hno
    simp only [enqueueJob, Bool.false_eq_true, if_false, List.any_eq_true, decide_eq_true_eq]
    rw [if_neg]
    rintro ⟨j, hj, hlp, hrp⟩
    exact hno j hj ⟨hlp, hrp⟩

theorem enqueueJob_plain_insert_witness :
    enqueueJob { eventType := .UPDATE, localPath := ("/w/a.txt").toList,
                 remotePath := ("w/a.txt").toList } false 5 2 [cexC1Job] = .error () ∧
    enqueueJob { eventType := .CREATE, localPath := ("/w/b.txt").toList,
                 remotePath := ("w/b.txt").toList } false 5 2 [cexC1Job] =
      .ok ([cexC1Job] ++
        [{ id := 2, eventType := .CREATE, localPath := ("/w/b.txt").toList,
           remotePath := ("w/b.txt").toList, status := .PENDING, retryAt := 5,
           nRetries := 0, lastError := none, createdAt := 5 }]) :=
  ⟨(enqueueJob_plain_insert _ 5 2 [cexC1Job]).1 ⟨cexC1Job, by decide⟩,
   (enqueueJob_plain_insert _ 5 2 [cexC1Job]).2 (by decide)⟩

-- ===========================================================================
-- Helper lemmas : retry scheduling
-- ===========================================================================

theorem MAX_RETRIES_eq : MAX_RETRIES = 11 := rfl

/-- For a network-classified error the base delay index is capped at
`NETWORK_RETRY_CAP_INDEX`, so the scheduled delay (jitter included) never
exceeds 256 × 1.25 = 320 seconds. -/
theorem scheduleRetryCalc_network_delay_le (n : Nat) (rand : ℚ)
    (_h0 : 0 ≤ rand) (h1 : rand ≤ 1) :
    (scheduleRetryCalc n true rand).delaySec ≤ 320 := by
  simp only [scheduleRetryCalc, if_true]
  have hle : min n NETWORK_RETRY_CAP_INDEX ≤ 4 := min_le_right _ _
  set i := min n NETWORK_RETRY_CAP_INDEX with hi
  have hbase : RETRY_DELAYS_SEC.getD (min i (RETRY_DELAYS_SEC.length - 1)) 0 ≤ 256 ∧
      0 ≤ RETRY_DELAYS_SEC.getD (min i (RETRY_DELAYS_SEC.length - 1)) 0 := by
    interval_cases i <;> norm_num [RETRY_DELAYS_SEC]
  set b := RETRY_DELAYS_SEC.getD (min i (RETRY_DELAYS_SEC.length - 1)) 0 with hb
  have hnn : 0 ≤ b * (1 - rand) := mul_nonneg hbase.2 (by linarith)
  apply max_le
  · norm_num
  · have : b * JITTER_FACTOR * (rand * 2 - 1) ≤ b * JITTER_FACTOR := by
      simp only [JITTER_FACTOR]
      nlinarith [hbase.2]
    simp only [JITTER_FACTOR] at this ⊢
    nlinarith [hbase.1, hbase.2]

theorem scheduleRetryCalc_network_newRetries (n : Nat) (rand : ℚ) :
    (scheduleRetryCalc n true rand).newRetries = min (n + 1) 5 := by
  simp [scheduleRetryCalc, NETWORK_RETRY_CAP_INDEX]

theorem scheduleRetryCalc_other_newRetries (n : Nat) (rand : ℚ) :
    (scheduleRetryCalc n false rand).newRetries = n + 1 := by
  simp [scheduleRetryCalc]

theorem tableDueTime_singleton (j : SyncJob) : tableDueTime [j] = max 0 j.retryAt := by
  simp [tableDueTime]

theorem getNextPendingJob_singleton (j : SyncJob) (now : ℚ)
    (hs : j.status = .PENDING) (hr : j.retryAt ≤ now) :
    getNextPendingJob [j] now = some j := by
  unfold getNextPendingJob
  have : [j].filter (fun j => decide (j.status = .PENDING ∧ j.retryAt ≤ now)) = [j] := by
    simp [hs, hr]
  rw [this]
  rfl

/-- One failing round on a one-job queue with a PENDING job and a
non-network error: block when `nRetries ≥ MAX_RETRIES`, else reschedule. -/
theorem failRound_singleton_other (j : SyncJob) (msg : Str) (rand : ℚ)
    (hs : j.status = .PENDING) (hnet : isNetworkError msg = false) :
    failRound msg rand [j] =
      if MAX_RETRIES ≤ j.nRetries then
        [{ j with status := .BLOCKED, lastError := some msg }]
      else
        [{ j with nRetries := j.nRetries + 1,
                  retryAt := tableDueTime [j] +
                    (scheduleRetryCalc j.nRetries false rand).delaySec * 1000,
                  lastError := some msg }] := by
  simp only [failRound]
  rw [getNextPendingJob_singleton j _ hs
      (by rw [tableDueTime_singleton]; exact le_max_right _ _)]
  by_cases hble : MAX_RETRIES ≤ j.nRetries
  · rw [if_pos hble]
    simp [processJobFailure, hnet, hble, markJobBlocked]
  · rw [if_neg hble]
    simp [processJobFailure, hnet, hble, scheduleRetry, scheduleRetryCalc_other_newRetries]

/-- One failing round on a one-job queue with a PENDING job and a network
error: always reschedule, never block. -/
theorem failRound_singleton_network (j : SyncJob) (msg : Str) (rand : ℚ)
    (hs : j.status = .PENDING) (hnet : isNetworkError msg = true) :
    failRound msg rand [j] =
      [{ j with nRetries := min (j.nRetries + 1) 5,
                retryAt := tableDueTime [j] +
                  (scheduleRetryCalc j.nRetries true rand).delaySec * 1000,
                lastError := some msg }] := by
  simp only [failRound]
  rw [getNextPendingJob_singleton j _ hs
      (by rw [tableDueTime_singleton]; exact le_max_right _ _)]
  simp [processJobFailure, hnet, scheduleRetry, scheduleRetryCalc_network_newRetries]

/-- A fresh PENDING job used by the retry-loop simulations. -/
def demoFreshJob : SyncJob :=
  { id := 1, eventType := .UPDATE, localPath := "/w/q".toList,
    remotePath := "w/q".toList, status := .PENDING, retryAt := 0,
    nRetries := 0, lastError := none, createdAt := 0 }

/-- Failing a fresh job `n ≤ MAX_RETRIES` times with a non-network error
leaves it PENDING with `nRetries = n`. -/
theorem failRounds_other_invariant (j0 : SyncJob) (msg : Str) (rand : ℚ)
    (hs : j0.status = .PENDING) (hn0 : j0.nRetries = 0)
    (hnet : isNetworkError msg = false) :
    ∀ n, n ≤ MAX_RETRIES →
      ∃ r le, failRounds msg rand n [j0] =
        [SyncJob.mk j0.id j0.eventType j0.localPath j0.remotePath .PENDING r n le
          j0.createdAt] := by
  intro n
  induction n with
  | zero =>
    intro _
    refine ⟨j0.retryAt, j0.lastError, ?_⟩
    rw [show failRounds msg rand 0 [j0] = [j0] from rfl]
    rw [← hs, ← hn0]
  | succ n ih =>
    intro hle
    obtain ⟨r, le, hprev⟩ := ih (Nat.le_of_succ_le hle)
    rw [show failRounds msg rand (n + 1) [j0] =
        failRound msg rand (failRounds msg rand n [j0]) from rfl, hprev]
    rw [failRound_singleton_other _ msg rand rfl hnet]
    rw [if_neg (by rw [MAX_RETRIES_eq] at hle; show ¬ (11 ≤ n); omega)]
    exact ⟨tableDueTime [SyncJob.mk j0.id j0.eventType j0.localPath j0.remotePath .PENDING
        r n le j0.createdAt] + (scheduleRetryCalc n false rand).delaySec * 1000,
      some msg, rfl⟩

/-- Failing a fresh job any number of times with a network error leaves it
PENDING with `nRetries = min n 5`. -/
theorem failRounds_network_invariant (j0 : SyncJob) (msg : Str) (rand : ℚ)
    (hs : j0.status = .PENDING) (hn0 : j0.nRetries = 0)
    (hnet : isNetworkError msg = true) :
    ∀ n, ∃ r le k, (failRounds msg rand n [j0] =
      [SyncJob.mk j0.id j0.eventType j0.localPath j0.remotePath .PENDING r k le
        j0.createdAt]) ∧ k = min n 5 := by
  intro n
  induction n with
  | zero =>
    refine ⟨j0.retryAt, j0.lastError, 0, ?_, rfl⟩
    rw [show failRounds msg rand 0 [j0] = [j0] from rfl]
    rw [← hs, ← hn0]
  | succ n ih =>
    obtain ⟨r, le, k, hprev, hk⟩ := ih
    rw [show failRounds msg rand (n + 1) [j0] =
        failRound msg rand (failRounds msg rand n [j0]) from rfl, hprev] at *
    rw [failRound_singleton_network _ msg rand rfl hnet]
    exact ⟨tableDueTime [SyncJob.mk j0.id j0.eventType j0.localPath j0.remotePath .PENDING
        r k le j0.createdAt] + (scheduleRetryCalc k true rand).delaySec * 1000,
      some msg, min (k + 1) 5, rfl, by omega⟩

-- ===========================================================================
-- C2
-- ===========================================================================

/-- C2: a failure whose message (lowercased) contains one of the network
substrings is always rescheduled — never transitioned to BLOCKED, no matter
how large `nRetries` already is — and the scheduled delay is at most
256 s + 25 % jitter = 320 s. -/
theorem network_error_reschedule (err : Str)
    (hp : ∃ p ∈ networkPatterns, containsSub (toLowerStr err) (toLowerStr p) = true)
    (job : SyncJob) (nowMs rand : ℚ) (h0 : 0 ≤ rand) (h1 : rand ≤ 1)
    (tbl : List SyncJob) :
    processJobFailure job err false nowMs rand tbl =
        scheduleRetry job.id job.nRetries err true false nowMs rand tbl ∧
    (processJobFailure job err false nowMs rand tbl).map SyncJob.status =
        tbl.map SyncJob.status ∧
    (scheduleRetryCalc job.nRetries true rand).delaySec ≤ 320 ∧
    ∀ j ∈ tbl, j.id = job.id →
      { j with nRetries := (scheduleRetryCalc job.nRetries true rand).newRetries,
               retryAt := nowMs + (scheduleRetryCalc job.nRetries true rand).delaySec * 1000,
               lastError := some err } ∈ processJobFailure job err false nowMs rand tbl := by
  have hnet : isNetworkError err = true := by
    unfold isNetworkError
    exact List.any_eq_true.mpr (by
      obtain ⟨p, hpmem, hc⟩ := hp
      exact ⟨p, hpmem, hc⟩)
  have heq : processJobFailure job err false nowMs rand tbl =
      scheduleRetry job.id job.nRetries err true false nowMs rand tbl := by
    simp [processJobFailure, hnet]
  refine ⟨heq, ?_, scheduleRetryCalc_network_delay_le _ _ h0 h1, ?_⟩
  · rw [heq]
    simp only [scheduleRetry, Bool.false_eq_true, if_false, List.map_map]
    apply List.map_congr_left
    intro j _
    by_cases hid : j.id = job.id <;> simp [hid]
  · intro j hj hid
    rw [heq]
    simp only [scheduleRetry, Bool.false_eq_true, if_false]
    exact List.mem_map.mpr ⟨j, hj, by rw [if_pos hid]⟩

/-- A job that has already failed many times, used by the C2 witness. -/
def demoJobC2 : SyncJob :=
  { id := 3, eventType := .CREATE, localPath := "/w/m".toList,
    remotePath := "w/m".toList, status := .PENDING, retryAt := 0,
    nRetries := 100, lastError := none, createdAt := 0 }

theorem network_error_reschedule_witness :
    (processJobFailure demoJobC2 ("ECONNRESET").toList false 0 (1/2)
        [demoJobC2]).map SyncJob.status = [demoJobC2].map SyncJob.status ∧
    (scheduleRetryCalc demoJobC2.nRetries true (1/2)).delaySec ≤ 320 := by
  have H := network_error_reschedule ("ECONNRESET").toList
    ⟨("ECONNRESET").toList, by decide, by decide⟩ demoJobC2 0 (1/2)
    (by norm_num) (by norm_num) [demoJobC2]
  exact ⟨H.2.1, H.2.2.1⟩

-- ===========================================================================
-- C4 : corrected
-- ===========================================================================

/-- C4 counterexample: a job failing 11 times with the non-network message
"remote rejected: quota exceeded" is still PENDING afterwards — it has not
transitioned to BLOCKED as the claim states. -/
theorem eleven_failures_not_blocked :
    ∃ j, failRounds ("remote rejected: quota exceeded").toList (1/2) 11 [demoFreshJob] = [j] ∧
      j.status = .PENDING ∧ ¬ j.status = .BLOCKED := by
  obtain ⟨r, le, h⟩ := failRounds_other_invariant demoFreshJob
    ("remote rejected: quota exceeded").toList (1/2) rfl rfl (by decide) 11 (le_refl _)
  exact ⟨_, h, rfl, by simp⟩

/-- C4 (amended): for a failure message that is never network-classified, the
job transitions to BLOCKED on the 12th failed attempt (after 11 scheduled
retries), with the message preserved in `lastError`; after 11 failed attempts
it is still PENDING with `nRetries = 11`. -/
theorem job_blocked_after_twelve_failures (msg : Str) (rand : ℚ)
    (hnet : isNetworkError msg = false) :
    (∃ j, failRounds msg rand 11 [demoFreshJob] = [j] ∧
        j.status = .PENDING ∧ j.nRetries = 11) ∧
    (∃ j, failRounds msg rand 12 [demoFreshJob] = [j] ∧
        j.status = .BLOCKED ∧ j.lastError = some msg) := by
  obtain ⟨r, le, h11⟩ := failRounds_other_invariant demoFreshJob msg rand rfl rfl hnet 11
    Nat.le.refl
  constructor
  · exact ⟨_, h11, rfl, rfl⟩
  · rw [show failRounds msg rand 12 [demoFreshJob] =
        failRound msg rand (failRounds msg rand 11 [demoFreshJob]) from rfl, h11]
    rw [failRound_singleton_other _ msg rand rfl hnet]
    rw [if_pos (show MAX_RETRIES ≤ (SyncJob.mk demoFreshJob.id demoFreshJob.eventType
        demoFreshJob.localPath demoFreshJob.remotePath .PENDING r 11 le
        demoFreshJob.createdAt).nRetries from Nat.le.refl)]
    exact ⟨_, rfl, rfl, rfl⟩

theorem job_blocked_after_twelve_failures_witness :
    (∃ j, failRounds ("remote rejected: quota exceeded").toList (1/2) 12 [demoFreshJob] = [j] ∧
        j.status = .BLOCKED ∧
        j.lastError = some ("remote rejected: quota exceeded").toList) :=
  (job_blocked_after_twelve_failures ("remote rejected: quota exceeded").toList (1/2)
    (by decide)).2

-- ===========================================================================
-- C8 : corrected
-- ===========================================================================

/-- C8 counterexample: after six consecutive failures with "ECONNRESET" the
job's `nRetries` is 5 (the code caps it at `NETWORK_RETRY_CAP_INDEX + 1 = 5`),
not 6 as the claim states. -/
theorem six_econnreset_failures_nretries_five :
    ∃ j, failRounds ("ECONNRESET").toList (1/2) 6 [demoFreshJob] = [j] ∧
      j.nRetries = 5 ∧ ¬ j.nRetries = 6 := by
  obtain ⟨r, le, k, h, hk⟩ := failRounds_network_invariant demoFreshJob
    ("ECONNRESET").toList (1/2) rfl rfl (by decide) 6
  rw [show min 6 5 = 5 from rfl] at hk
  subst hk
  exact ⟨_, h, rfl, by simp⟩

/-- C8 (amended): a job failing repeatedly with "ECONNRESET" stays PENDING
forever with `nRetries` capped at 5 (so `nRetries = min n 5` after `n`
failures), and every scheduled retry delay — in particular the one after the
fifth attempt — is at most 256 s × 1.25 = 320 s. -/
theorem econnreset_retries_capped (rand : ℚ) (h0 : 0 ≤ rand) (h1 : rand ≤ 1) :
    (∀ n, ∃ j, failRounds ("ECONNRESET").toList rand n [demoFreshJob] = [j] ∧
        j.status = .PENDING ∧ j.nRetries = min n 5) ∧
    (∀ m, (scheduleRetryCalc m true rand).delaySec ≤ 320) := by
  constructor
  · intro n
    obtain ⟨r, le, k, h, hk⟩ := failRounds_network_invariant demoFreshJob
      ("ECONNRESET").toList rand rfl rfl (by decide) n
    subst hk
    exact ⟨_, h, rfl, rfl⟩
  · intro m
    exact scheduleRetryCalc_network_delay_le m rand h0 h1

theorem econnreset_retries_capped_witness :
    (∃ j, failRounds ("ECONNRESET").toList (1/2) 6 [demoFreshJob] = [j] ∧
        j.status = .PENDING ∧ j.nRetries = min 6 5) :=
  (econnreset_retries_capped (1/2) (by norm_num) (by norm_num)).1 6

-- ===========================================================================
-- signals.ts
-- ===========================================================================

/-- A row of the `signals` table (`src/db/schema.ts`). -/
structure SignalRow where
  id : Nat
  signal : Str
  createdAt : ℚ
  deriving DecidableEq, Repr

/-- An observable action of one iteration of the polling loop in
`startSignalListener` (`src/signals.ts`): either the transactional deletion
of a signal row or the `EventEmitter` emission to the registered handlers. -/
inductive SignalAction
  | deleteRow (id : Nat)
  | emit (signal : Str)
  deriving DecidableEq, Repr

/-- The ordered action trace of one polling iteration of
`startSignalListener`: scan all rows; for each row whose signal has at least
one registered listener (`signalEmitter.listenerCount(row.signal) > 0`),
delete the row and then emit the signal — in that order; other rows produce
no action.  `listenerCount` gives the number of registered handlers per
signal name (assumed not to change during the iteration). -/
def signalPollTickTrace (listenerCount : Str → Nat) (rows : List SignalRow) :
    List SignalAction :=
  rows.flatMap (fun r =>
    if 0 < listenerCount r.signal then [.deleteRow r.id, .emit r.signal] else [])

/-- The rows still present in the `signals` table after one polling
iteration: exactly the scanned rows whose signal has no listener. -/
def signalPollTickRows (listenerCount : Str → Nat) (rows : List SignalRow) :
    List SignalRow :=
  rows.filter (fun r => decide (listenerCount r.signal = 0))

-- ===========================================================================
-- C9
-- ===========================================================================

/-- C9: in one iteration of the signal polling loop, every row whose signal
has a registered listener is deleted from the durable queue strictly before
its listener is invoked (the delete action immediately precedes the emit
action), and rows whose signal has no registered listener are never deleted
and remain in the queue. -/
theorem signal_tick_delete_before_emit (L : Str → Nat) (rows : List SignalRow)
    (hids : (rows.map SignalRow.id).Nodup) :
    (∀ r ∈ rows, 0 < L r.signal →
        ∃ i, (signalPollTickTrace L rows).get? i = some (.deleteRow r.id) ∧
             (signalPollTickTrace L rows).get? (i + 1) = some (.emit r.signal)) ∧
    (∀ r ∈ rows, L r.signal = 0 →
        (SignalAction.deleteRow r.id) ∉ signalPollTickTrace L rows ∧
        r ∈ signalPollTickRows L rows) := by
  constructor
  · intro r hr hL
    clear hids
    induction rows with
    | nil => cases hr
    | cons x xs ih =>
      rcases List.mem_cons.mp hr with rfl | hx
      · have htr : signalPollTickTrace L (r :: xs) =
            .deleteRow r.id :: .emit r.signal :: signalPollTickTrace L xs := by
          simp [signalPollTickTrace, List.flatMap_cons, if_pos hL]
        exact ⟨0, by rw [htr]; rfl, by rw [htr]; rfl⟩
      · obtain ⟨i, h1, h2⟩ := ih hx
        by_cases hxL : 0 < L x.signal
        · have htr : signalPollTickTrace L (x :: xs) =
              .deleteRow x.id :: .emit x.signal :: signalPollTickTrace L xs := by
            simp [signalPollTickTrace, List.flatMap_cons, if_pos hxL]
          exact ⟨i + 2, by rw [htr]; exact h1, by rw [htr]; exact h2⟩
        · have htr : signalPollTickTrace L (x :: xs) = signalPollTickTrace L xs := by
            simp [signalPollTickTrace, List.flatMap_cons, if_neg hxL]
          exact ⟨i, by rw [htr]; exact h1, by rw [htr]; exact h2⟩
  · intro r hr hL
    constructor
    · intro hmem
      rcases List.mem_flatMap.mp hmem with ⟨r', hr', hact⟩
      by_cases hL' : 0 < L r'.signal
      · rw [if_pos hL'] at hact
        simp only [List.mem_cons, List.not_mem_nil, or_false] at hact
        rcases hact with h | h
        · have hid : r'.id = r.id := by
            injection h with h'
            exact h'.symm
          have : r' = r := List.inj_on_of_nodup_map hids hr' hr hid
          rw [this] at hL'
          omega
        · exact SignalAction.noConfusion h
      · rw [if_neg hL'] at hact
        cases hact
    · exact List.mem_filter.mpr ⟨hr, decide_eq_true hL⟩

/-- Listener map for the C9 witness: one listener for "stop", none
otherwise. -/
def demoListeners : Str → Nat :=
  fun s => if s = ("stop").toList then 1 else 0

/-- Signal rows for the C9 witness. -/
def demoSignalRows : List SignalRow :=
  [{ id := 1, signal := ("stop").toList, createdAt := 0 },
   { id := 2, signal := ("pause-sync").toList, createdAt := 0 }]

theorem signal_tick_delete_before_emit_witness :
    (∃ i, (signalPollTickTrace demoListeners demoSignalRows).get? i =
            some (.deleteRow 1) ∧
          (signalPollTickTrace demoListeners demoSignalRows).get? (i + 1) =
            some (.emit (("stop").toList))) ∧
    ((SignalAction.deleteRow 2) ∉ signalPollTickTrace demoListeners demoSignalRows ∧
      { id := 2, signal := ("pause-sync").toList, createdAt := 0 } ∈
        signalPollTickRows demoListeners demoSignalRows) := by
  have H := signal_tick_delete_before_emit demoListeners demoSignalRows (by decide)
  exact ⟨H.1 demoSignalRows[0] (by decide) (by decide),
         H.2 demoSignalRows[1] (by decide) (by decide)⟩

-- ===========================================================================
-- sync/engine.ts : data model
-- ===========================================================================

/-- Watchman file types: `'f'` (file) and `'d'` (directory). -/
inductive FileType
  | f
  | d
  deriving DecidableEq, Repr

/-- A watcher event augmented with its computed paths
(`FileChangeWithPaths` in `src/sync/engine.ts`).  `fexists` is the source's
`exists` field (a reserved word in Lean), `new` whether the path is freshly
observed, `type` the watchman type, `sha1hex` the source's
`content.sha1hex` field (absent for directories and deleted files).
`localPath`/`remotePath` are the outputs of `buildPaths`. -/
structure FileChangeWithPaths where
  localPath : Str
  remotePath : Str
  fexists : Bool
  new : Bool
  type : FileType
  ino : Nat
  sha1hex : Option Str
  deriving DecidableEq, Repr

/-- A row of the `node_mapping` table (value part). -/
structure NodeMappingRow where
  nodeUid : Str
  parentNodeUid : Str
  isDirectory : Bool
  deriving DecidableEq, Repr

/-- The engine-relevant durable state threaded through one translator
transaction: the `file_hashes` table (`localPath → contentHash`) and the
`node_mapping` table (`localPath → mapping`). -/
structure EngineState where
  fileHashes : List (Str × Str)
  nodeMappings : List (Str × NodeMappingRow)
  deriving DecidableEq, Repr

/-- Modelled from the spec: `getStoredHash` of `src/sync/hashes.ts` (absent
from the sources) looks up the `file_hashes` row for a local path. -/
def getStoredHash (st : EngineState) (p : Str) : Option Str :=
  (st.fileHashes.find? (fun e => decide (e.1 = p))).map Prod.snd

/-- Modelled from the spec: `deleteStoredHash` of `src/sync/hashes.ts`
(absent from the sources) deletes the `file_hashes` row for a local path. -/
def deleteStoredHash (st : EngineState) (p : Str) : EngineState :=
  { st with fileHashes := st.fileHashes.filter (fun e => !decide (e.1 = p)) }

/-- A path `q` lies strictly under a directory path `p` when `p ++ "/"` is a
prefix of `q`. -/
def isPathUnder (p q : Str) : Bool := decide ((p ++ ['/']) <+: q)

/-- Modelled from the spec: `deleteStoredHashesUnderPath` of
`src/sync/hashes.ts` (absent from the sources) purges every `file_hashes`
row whose key is a descendant of the given directory path. -/
def deleteStoredHashesUnderPath (st : EngineState) (p : Str) : EngineState :=
  { st with fileHashes := st.fileHashes.filter (fun e => !isPathUnder p e.1) }

/-- Modelled from the spec: `getNodeMapping` of `src/sync/nodes.ts` (absent
from the sources) looks up the `node_mapping` row for a local path. -/
def getNodeMapping (st : EngineState) (p : Str) : Option NodeMappingRow :=
  (st.nodeMappings.find? (fun e => decide (e.1 = p))).map Prod.snd

/-- Modelled from the spec: `deleteNodeMapping` of `src/sync/nodes.ts`
(absent from the sources) deletes the `node_mapping` row for a local path. -/
def deleteNodeMapping (st : EngineState) (p : Str) : EngineState :=
  { st with nodeMappings := st.nodeMappings.filter (fun e => !decide (e.1 = p)) }

/-- Modelled from the spec: `deleteNodeMappingsUnderPath` of
`src/sync/nodes.ts` (absent from the sources) purges every `node_mapping`
row whose key is a descendant of the given directory path. -/
def deleteNodeMappingsUnderPath (st : EngineState) (p : Str) : EngineState :=
  { st with nodeMappings := st.nodeMappings.filter (fun e => !isPathUnder p e.1) }

/-- The parameter record the engine passes to the queue's `enqueueJob`
(`src/sync/engine.ts` call sites). -/
structure JobParams where
  eventType : SyncEventType
  localPath : Str
  remotePath : Str
  contentHash : Option Str
  oldLocalPath : Option Str
  oldRemotePath : Option Str
  deriving DecidableEq, Repr

-- ===========================================================================
-- sync/engine.ts : handleFileChangeBatch
-- ===========================================================================

/-- `deletesByIno.set(file.ino, file)`: JavaScript `Map.set` keeps the first
insertion position of an existing key and overwrites its value, otherwise
appends. -/
def insertByIno (m : List (Nat × FileChangeWithPaths)) (file : FileChangeWithPaths) :
    List (Nat × FileChangeWithPaths) :=
  if m.any (fun e => decide (e.1 = file.ino)) then
    m.map (fun e => if e.1 = file.ino then (file.ino, file) else e)
  else m ++ [(file.ino, file)]

/-- Building `deletesByIno` / `createsByIno` by iterating the event list. -/
def buildInoMap (files : List FileChangeWithPaths) : List (Nat × FileChangeWithPaths) :=
  files.foldl insertByIno []

/-- `Map.get`. -/
def inoLookup (m : List (Nat × FileChangeWithPaths)) (ino : Nat) :
    Option FileChangeWithPaths :=
  (m.find? (fun e => decide (e.1 = ino))).map Prod.snd

/-- The rename-matching loop of `handleFileChangeBatch`: for each entry of
`deletesByIno` (in order) that has a `createsByIno` entry with the same ino,
push the pair and remove both entries.  Since map keys are unique, this is
the list of `(deleteFile, createFile)` pairs over the original maps. -/
def matchRenames (dm cm : List (Nat × FileChangeWithPaths)) :
    List (FileChangeWithPaths × FileChangeWithPaths) :=
  dm.filterMap (fun e => (inoLookup cm e.1).map (fun c => (e.2, c)))

/-- The entries of `deletesByIno` left after the rename-matching loop. -/
def remainingDeletes (dm cm : List (Nat × FileChangeWithPaths)) :
    List FileChangeWithPaths :=
  (dm.filter (fun e => (inoLookup cm e.1).isNone)).map Prod.snd

/-- The entries of `createsByIno` left after the rename-matching loop. -/
def remainingCreates (dm cm : List (Nat × FileChangeWithPaths)) :
    List FileChangeWithPaths :=
  (cm.filter (fun e => (inoLookup dm e.1).isNone)).map Prod.snd

/-- The DELETE job parameters enqueued for a delete event. -/
def deleteJobParams (file : FileChangeWithPaths) : JobParams :=
  { eventType := .DELETE, localPath := file.localPath, remotePath := file.remotePath,
    contentHash := none, oldLocalPath := none, oldRemotePath := none }

/-- The CREATE job parameters enqueued for a create event
(`contentHash = to['content.sha1hex'] ?? null`). -/
def createJobParams (file : FileChangeWithPaths) : JobParams :=
  { eventType := .CREATE, localPath := file.localPath, remotePath := file.remotePath,
    contentHash := file.sha1hex, oldLocalPath := none, oldRemotePath := none }

/-- The purge sequence the engine runs for a deleted path: drop the stored
hash and node mapping of the path itself, and — when the deleted entry was a
directory — every stored hash and node mapping under it. -/
def purgeForDelete (st : EngineState) (file : FileChangeWithPaths) : EngineState :=
  let st1 := deleteNodeMapping (deleteStoredHash st file.localPath) file.localPath
  if file.type = .d then
    deleteNodeMappingsUnderPath (deleteStoredHashesUnderPath st1 file.localPath)
      file.localPath
  else st1

/-- The body of the renames/moves loop of `handleFileChangeBatch`: with a
node mapping for `from.localPath`, enqueue one RENAME (same `dirname`) or
MOVE (different `dirname`) job carrying the old paths and the new content
hash; without one, fall back to DELETE(from) + CREATE(to) with the purge
sequence.  Returns the `enqueueJob` calls made (none recorded under
`dryRun`, matching the queue's no-op) and the transaction state. -/
def processPair (dirname : Str → Str) (dryRun : Bool) (st : EngineState)
    (pr : FileChangeWithPaths × FileChangeWithPaths) :
    List JobParams × EngineState :=
  match getNodeMapping st pr.1.localPath with
  | none =>
      ((if dryRun then [] else [deleteJobParams pr.1, createJobParams pr.2]),
        purgeForDelete st pr.1)
  | some _ =>
      let eventType :=
        if dirname pr.1.localPath = dirname pr.2.localPath then
          SyncEventType.RENAME
        else SyncEventType.MOVE
      ((if dryRun then []
        else [{ eventType := eventType, localPath := pr.2.localPath,
                remotePath := pr.2.remotePath, contentHash := pr.2.sha1hex,
                oldLocalPath := some pr.1.localPath,
                oldRemotePath := some pr.1.remotePath }]), st)

/-- The body of the remaining-deletes loop: enqueue DELETE and purge. -/
def processDelete (dryRun : Bool) (st : EngineState) (file : FileChangeWithPaths) :
    List JobParams × EngineState :=
  ((if dryRun then [] else [deleteJobParams file]), purgeForDelete st file)

/-- The body of the remaining-creates loop: enqueue CREATE. -/
def processCreate (dryRun : Bool) (st : EngineState) (file : FileChangeWithPaths) :
    List JobParams × EngineState :=
  ((if dryRun then [] else [createJobParams file]), st)

/-- The body of the updates loop: skip directories; skip a file when a
non-empty stored hash strictly equals the new `content.sha1hex`
(`if (storedHash && storedHash === newHash)` — the empty string is falsy in
JavaScript); otherwise enqueue UPDATE carrying the new hash. -/
def processUpdate (dryRun : Bool) (st : EngineState) (file : FileChangeWithPaths) :
    List JobParams × EngineState :=
  if file.type = .d then ([], st)
  else
    let storedHash := getStoredHash st file.localPath
    let skip := match storedHash with
      | some h => !h.isEmpty && decide (some h = file.sha1hex)
      | none => false
    if skip then ([], st)
    else
      ((if dryRun then []
        else [{ eventType := .UPDATE, localPath := file.localPath,
                remotePath := file.remotePath, contentHash := file.sha1hex,
                oldLocalPath := none, oldRemotePath := none }]), st)

/-- Run a loop body over a list, threading the transaction state and
concatenating the `enqueueJob` calls in order. -/
def foldJobs (step : EngineState → α → List JobParams × EngineState)
    (st : EngineState) : List α → List JobParams × EngineState
  | [] => ([], st)
  | x :: xs =>
      let r := step st x
      let rest := foldJobs step r.2 xs
      (r.1 ++ rest.1, rest.2)

/-- `handleFileChangeBatch` from `src/sync/engine.ts`, after the per-event
`buildPaths` augmentation: partition the batch into deletes / creates /
updates, match renames by ino, and process — inside one transaction — the
rename pairs, the remaining deletes, the remaining creates and the updates,
in that order.  `dirname` abstracts Node's `path.dirname`.  Returns the
`enqueueJob` calls made, in order, and the final state. -/
def handleFileChangeBatch (dirname : Str → Str) (files : List FileChangeWithPaths)
    (dryRun : Bool) (st : EngineState) : List JobParams × EngineState :=
  if files.isEmpty then ([], st)
  else
    let deletes := files.filter (fun f => !f.fexists)
    let creates := files.filter (fun f => f.fexists && f.new)
    let updates := files.filter (fun f => f.fexists && !f.new)
    let dm := buildInoMap deletes
    let cm := buildInoMap creates
    let renames := matchRenames dm cm
    let a := foldJobs (processPair dirname dryRun) st renames
    let b := foldJobs (processDelete dryRun) a.2 (remainingDeletes dm cm)
    let c := foldJobs (processCreate dryRun) b.2 (remainingCreates dm cm)
    let d := foldJobs (processUpdate dryRun) c.2 updates
    (a.1 ++ b.1 ++ c.1 ++ d.1, d.2)

-- ===========================================================================
-- Helper lemmas : foldJobs
-- ===========================================================================

theorem foldJobs_append (step : EngineState → α → List JobParams × EngineState)
    (st : EngineState) (l₁ l₂ : List α) :
    foldJobs step st (l₁ ++ l₂) =
      ((foldJobs step st l₁).1 ++ (foldJobs step (foldJobs step st l₁).2 l₂).1,
       (foldJobs step (foldJobs step st l₁).2 l₂).2) := by
  induction l₁ generalizing st with
  | nil => simp [foldJobs]
  | cons x xs ih => simp [foldJobs, ih, List.append_assoc]

theorem mem_foldJobs (step : EngineState → α → List JobParams × EngineState)
    {st : EngineState} {l : List α} {j : JobParams} :
    j ∈ (foldJobs step st l).1 → ∃ x ∈ l, ∃ s, j ∈ (step s x).1 := by
  induction l generalizing st with
  | nil => intro h; cases h
  | cons x xs ih =>
    intro h
    rcases List.mem_append.mp h with h | h
    · exact ⟨x, List.mem_cons_self x xs, st, h⟩
    · obtain ⟨y, hy, s, hs⟩ := ih h
      exact ⟨y, List.mem_cons_of_mem x hy, s, hs⟩

theorem foldJobs_state_invariant (step : EngineState → α → List JobParams × EngineState)
    (P : EngineState → Prop) (l : List α)
    (hstep : ∀ s x, x ∈ l → P s → P ((step s x).2)) :
    ∀ st, P st → P (foldJobs step st l).2 := by
  induction l with
  | nil => intro st h; exact h
  | cons x xs ih =>
    intro st h
    exact ih (fun s y hy hP => hstep s y (List.mem_cons_of_mem x hy) hP)
      (step st x).2 (hstep st x (List.mem_cons_self x xs) h)

theorem foldJobs_filter_eq_nil (step : EngineState → α → List JobParams × EngineState)
    {st : EngineState} {l : List α} (p : JobParams → Bool)
    (h : ∀ x ∈ l, ∀ s, ∀ j ∈ (step s x).1, p j = false) :
    (foldJobs step st l).1.filter p = [] := by
  rw [List.filter_eq_nil_iff]
  intro j hj
  obtain ⟨x, hx, s, hs⟩ := mem_foldJobs step hj
  simp [h x hx s j hs]

-- ===========================================================================
-- Helper lemmas : row lookup under filtering
-- ===========================================================================

theorem findP_cons {α : Type} (pred : α → Bool) (a : α) (l : List α) :
    (a :: l).find? pred = if pred a then some a else l.find? pred := by
  cases h : pred a <;> simp [h]

theorem find?_filter_keep {α : Type} (rows : List (Str × α)) (q : Str × α → Bool)
    (p : Str) (h : ∀ a : α, q (p, a) = true) :
    (rows.filter q).find? (fun e => decide (e.1 = p)) =
      rows.find? (fun e => decide (e.1 = p)) := by
  induction rows with
  | nil => rfl
  | cons e rest ih =>
    by_cases he : e.1 = p
    · have hq : q e = true := by
        have he2 : e = (p, e.2) := by
          cases e with
          | mk a b => simp only at he; rw [he]
        rw [he2]
        exact h e.2
      rw [List.filter_cons_of_pos hq, findP_cons, findP_cons]
      simp [he]
    · cases hq : q e with
      | true =>
        rw [List.filter_cons_of_pos hq, findP_cons, findP_cons]
        simp [he, ih]
      | false =>
        rw [List.filter_cons_of_neg (by simp [hq]), findP_cons]
        simp [he, ih]

theorem find?_filter_none {α : Type} (rows : List (Str × α)) (q pred : Str × α → Bool)
    (h : rows.find? pred = none) : (rows.filter q).find? pred = none := by
  rw [List.find?_eq_none] at *
  intro x hx
  exact h x (List.mem_of_mem_filter hx)

/-- `purgeForDelete` only filters the two row lists. -/
theorem purgeForDelete_nodeMappings (st : EngineState) (d : FileChangeWithPaths) :
    (purgeForDelete st d).nodeMappings =
      if d.type = .d then
        (st.nodeMappings.filter (fun e => !decide (e.1 = d.localPath))).filter
          (fun e => !isPathUnder d.localPath e.1)
      else st.nodeMappings.filter (fun e => !decide (e.1 = d.localPath)) := by
  unfold purgeForDelete deleteNodeMapping deleteStoredHash deleteNodeMappingsUnderPath
    deleteStoredHashesUnderPath
  by_cases hd : d.type = .d <;> simp [hd]

theorem purgeForDelete_fileHashes (st : EngineState) (d : FileChangeWithPaths) :
    (purgeForDelete st d).fileHashes =
      if d.type = .d then
        (st.fileHashes.filter (fun e => !decide (e.1 = d.localPath))).filter
          (fun e => !isPathUnder d.localPath e.1)
      else st.fileHashes.filter (fun e => !decide (e.1 = d.localPath)) := by
  unfold purgeForDelete deleteNodeMapping deleteStoredHash deleteNodeMappingsUnderPath
    deleteStoredHashesUnderPath
  by_cases hd : d.type = .d <;> simp [hd]

/-- A purge for a path that is neither `p` nor an ancestor of `p` preserves
the node-mapping lookup at `p`. -/
theorem getNodeMapping_purgeForDelete (st : EngineState) (d : FileChangeWithPaths)
    (p : Str) (hne : ¬ d.localPath = p) (hunder : isPathUnder d.localPath p = false) :
    getNodeMapping (purgeForDelete st d) p = getNodeMapping st p := by
  unfold getNodeMapping
  rw [purgeForDelete_nodeMappings]
  by_cases hd : d.type = .d
  · rw [if_pos hd, find?_filter_keep _ _ _ (fun a => by simp [hunder]),
      find?_filter_keep _ _ _ (fun a => by simpa using fun hc => hne hc.symm)]
  · rw [if_neg hd, find?_filter_keep _ _ _ (fun a => by simpa using fun hc => hne hc.symm)]

theorem getStoredHash_purgeForDelete (st : EngineState) (d : FileChangeWithPaths)
    (p : Str) (hne : ¬ d.localPath = p) (hunder : isPathUnder d.localPath p = false) :
    getStoredHash (purgeForDelete st d) p = getStoredHash st p := by
  unfold getStoredHash
  rw [purgeForDelete_fileHashes]
  by_cases hd : d.type = .d
  · rw [if_pos hd, find?_filter_keep _ _ _ (fun a => by simp [hunder]),
      find?_filter_keep _ _ _ (fun a => by simpa using fun hc => hne hc.symm)]
  · rw [if_neg hd, find?_filter_keep _ _ _ (fun a => by simpa using fun hc => hne hc.symm)]

/-- Absent node mappings stay absent under a purge (purges never insert). -/
theorem getNodeMapping_none_purgeForDelete (st : EngineState) (d : FileChangeWithPaths)
    (p : Str) (h : getNodeMapping st p = none) :
    getNodeMapping (purgeForDelete st d) p = none := by
  unfold getNodeMapping at *
  rw [Option.map_eq_none'] at *
  rw [purgeForDelete_nodeMappings]
  by_cases hd : d.type = .d
  · rw [if_pos hd]
    exact find?_filter_none _ _ _ (find?_filter_none _ _ _ h)
  · rw [if_neg hd]
    exact find?_filter_none _ _ _ h

theorem getStoredHash_none_purgeForDelete (st : EngineState) (d : FileChangeWithPaths)
    (p : Str) (h : getStoredHash st p = none) :
    getStoredHash (purgeForDelete st d) p = none := by
  unfold getStoredHash at *
  rw [Option.map_eq_none'] at *
  rw [purgeForDelete_fileHashes]
  by_cases hd : d.type = .d
  · rw [if_pos hd]
    exact find?_filter_none _ _ _ (find?_filter_none _ _ _ h)
  · rw [if_neg hd]
    exact find?_filter_none _ _ _ h

/-- After a purge, the purged path itself has no node mapping. -/
theorem getNodeMapping_purgeForDelete_self (st : EngineState) (d : FileChangeWithPaths) :
    getNodeMapping (purgeForDelete st d) d.localPath = none := by
  unfold getNodeMapping
  rw [Option.map_eq_none', purgeForDelete_nodeMappings, List.find?_eq_none]
  by_cases hd : d.type = .d
  · rw [if_pos hd]
    intro e he hc
    have := (List.mem_filter.mp (List.mem_of_mem_filter he)).2
    rw [of_decide_eq_true hc] at this
    simp at this
  · rw [if_neg hd]
    intro e he hc
    have := (List.mem_filter.mp he).2
    rw [of_decide_eq_true hc] at this
    simp at this

theorem getStoredHash_purgeForDelete_self (st : EngineState) (d : FileChangeWithPaths) :
    getStoredHash (purgeForDelete st d) d.localPath = none := by
  unfold getStoredHash
  rw [Option.map_eq_none', purgeForDelete_fileHashes, List.find?_eq_none]
  by_cases hd : d.type = .d
  · rw [if_pos hd]
    intro e he hc
    have := (List.mem_filter.mp (List.mem_of_mem_filter he)).2
    rw [of_decide_eq_true hc] at this
    simp at this
  · rw [if_neg hd]
    intro e he hc
    have := (List.mem_filter.mp he).2
    rw [of_decide_eq_true hc] at this
    simp at this

/-- After a directory purge, no path under the purged path has a node
mapping. -/
theorem getNodeMapping_purgeForDelete_under (st : EngineState)
    (d : FileChangeWithPaths) (hd : d.type = .d) (p : Str)
    (hp : isPathUnder d.localPath p = true) :
    getNodeMapping (purgeForDelete st d) p = none := by
  unfold getNodeMapping
  rw [Option.map_eq_none', purgeForDelete_nodeMappings, if_pos hd, List.find?_eq_none]
  intro e he hc
  have := (List.mem_filter.mp he).2
  rw [of_decide_eq_true hc, hp] at this
  simp at this

theorem getStoredHash_purgeForDelete_under (st : EngineState)
    (d : FileChangeWithPaths) (hd : d.type = .d) (p : Str)
    (hp : isPathUnder d.localPath p = true) :
    getStoredHash (purgeForDelete st d) p = none := by
  unfold getStoredHash
  rw [Option.map_eq_none', purgeForDelete_fileHashes, if_pos hd, List.find?_eq_none]
  intro e he hc
  have := (List.mem_filter.mp he).2
  rw [of_decide_eq_true hc, hp] at this
  simp at this

-- ===========================================================================
-- Helper lemmas : ino maps and rename matching
-- ===========================================================================

theorem buildInoMap_eq_aux (files : List FileChangeWithPaths) :
    ∀ acc, ((acc.map Prod.fst) ++ files.map FileChangeWithPaths.ino).Nodup →
      files.foldl insertByIno acc = acc ++ files.map (fun f => (f.ino, f)) := by
  induction files with
  | nil => intro acc _; simp
  | cons x xs ih =>
    intro acc h
    have hnotin : x.ino ∉ acc.map Prod.fst := by
      rcases List.nodup_append.mp h with ⟨_, _, hdisj⟩
      intro hc
      exact hdisj hc (by simp)
    have hany : (acc.any fun e => decide (e.1 = x.ino)) = false := by
      rw [Bool.eq_false_iff]
      intro hc
      rcases List.any_eq_true.mp hc with ⟨e, he, hd⟩
      exact hnotin (List.mem_map.mpr ⟨e, he, of_decide_eq_true hd⟩)
    rw [List.foldl_cons,
      show insertByIno acc x = acc ++ [(x.ino, x)] from by
        unfold insertByIno; rw [hany]; rfl,
      ih (acc ++ [(x.ino, x)]) (by simpa [List.append_assoc] using h)]
    simp

theorem buildInoMap_eq (files : List FileChangeWithPaths)
    (h : (files.map FileChangeWithPaths.ino).Nodup) :
    buildInoMap files = files.map (fun f => (f.ino, f)) := by
  have := buildInoMap_eq_aux files [] (by simpa using h)
  simpa [buildInoMap] using this

theorem inoLookup_map (xs : List FileChangeWithPaths) (i : Nat) :
    inoLookup (xs.map (fun f => (f.ino, f))) i =
      xs.find? (fun f => decide (f.ino = i)) := by
  induction xs with
  | nil => rfl
  | cons x xs ih =>
    unfold inoLookup at *
    rw [List.map_cons, findP_cons, findP_cons]
    by_cases hx : x.ino = i
    · rw [if_pos (by simp [hx]), if_pos (by simp [hx])]
      rfl
    · rw [if_neg (by simp [hx]), if_neg (by simp [hx])]
      exact ih

theorem find?_eq_some_of_unique {α : Type} {p : α → Bool} {a : α} :
    ∀ (l : List α), a ∈ l → p a = true → (∀ b ∈ l, p b = true → b = a) →
      l.find? p = some a := by
  intro l
  induction l with
  | nil => intro h; cases h
  | cons x xs ih =>
    intro ha hpa huniq
    by_cases hx : p x = true
    · rw [findP_cons, if_pos hx]
      exact congrArg some (huniq x (List.mem_cons_self x xs) hx)
    · rw [findP_cons, if_neg hx]
      rcases List.mem_cons.mp ha with rfl | hm
      · exact absurd hpa hx
      · exact ih hm hpa (fun b hb hpb => huniq b (List.mem_cons_of_mem x hb) hpb)

theorem matchRenames_fst_sublist (dm cm : List (Nat × FileChangeWithPaths)) :
    List.Sublist ((matchRenames dm cm).map Prod.fst) (dm.map Prod.snd) := by
  induction dm with
  | nil => simp [matchRenames]
  | cons e rest ih =>
    unfold matchRenames at *
    cases h : inoLookup cm e.1 with
    | none =>
      simp only [List.filterMap_cons, h, Option.map_none', List.map_cons]
      exact ih.trans (List.sublist_cons_self e.2 (rest.map Prod.snd))
    | some c =>
      simp only [List.filterMap_cons, h, Option.map_some', List.map_cons]
      exact List.Sublist.cons₂ e.2 ih

-- ===========================================================================
-- Helper lemmas : loop-body characterizations
-- ===========================================================================

theorem find?_decide_ino {xs : List FileChangeWithPaths} {i : Nat}
    {c : FileChangeWithPaths}
    (h : xs.find? (fun f => decide (f.ino = i)) = some c) : c.ino = i := by
  induction xs with
  | nil => cases h
  | cons x xs ih =>
    rw [findP_cons] at h
    by_cases hx : decide (x.ino = i) = true
    · rw [if_pos hx] at h
      cases h
      exact of_decide_eq_true hx
    · rw [if_neg hx] at h
      exact ih h

theorem inoLookup_some_facts (xs : List FileChangeWithPaths) (i : Nat)
    (c : FileChangeWithPaths)
    (h : inoLookup (xs.map (fun f => (f.ino, f))) i = some c) :
    c ∈ xs ∧ c.ino = i := by
  rw [inoLookup_map] at h
  exact ⟨List.mem_of_find?_eq_some h, find?_decide_ino h⟩

theorem processPair_state (dn : Str → Str) (dr : Bool) (s : EngineState)
    (pr : FileChangeWithPaths × FileChangeWithPaths) :
    (processPair dn dr s pr).2 =
      match getNodeMapping s pr.1.localPath with
      | none => purgeForDelete s pr.1
      | some _ => s := by
  unfold processPair
  cases getNodeMapping s pr.1.localPath <;> rfl

theorem processPair_jobs_none (dn : Str → Str) (s : EngineState)
    (pr : FileChangeWithPaths × FileChangeWithPaths)
    (h : getNodeMapping s pr.1.localPath = none) :
    (processPair dn false s pr).1 = [deleteJobParams pr.1, createJobParams pr.2] := by
  unfold processPair
  rw [h]
  rfl

theorem processPair_jobs_some (dn : Str → Str) (s : EngineState)
    (pr : FileChangeWithPaths × FileChangeWithPaths) (m : NodeMappingRow)
    (h : getNodeMapping s pr.1.localPath = some m) :
    (processPair dn false s pr).1 =
      [{ eventType := if dn pr.1.localPath = dn pr.2.localPath then
            SyncEventType.RENAME else SyncEventType.MOVE,
         localPath := pr.2.localPath, remotePath := pr.2.remotePath,
         contentHash := pr.2.sha1hex, oldLocalPath := some pr.1.localPath,
         oldRemotePath := some pr.1.remotePath }] := by
  unfold processPair
  rw [h]
  rfl

theorem mem_processPair_localPath {dn : Str → Str} {s : EngineState}
    {pr : FileChangeWithPaths × FileChangeWithPaths} {j : JobParams}
    (hj : j ∈ (processPair dn false s pr).1) :
    j.localPath = pr.1.localPath ∨ j.localPath = pr.2.localPath := by
  cases hgm : getNodeMapping s pr.1.localPath with
  | none =>
    rw [processPair_jobs_none dn s pr hgm] at hj
    rcases List.mem_cons.mp hj with rfl | hj'
    · exact Or.inl rfl
    · rcases List.mem_cons.mp hj' with rfl | hj''
      · exact Or.inr rfl
      · cases hj''
  | some m =>
    rw [processPair_jobs_some dn s pr m hgm] at hj
    rcases List.mem_cons.mp hj with rfl | hj'
    · exact Or.inr rfl
    · cases hj'

theorem processDelete_jobs (s : EngineState) (d : FileChangeWithPaths) :
    (processDelete false s d).1 = [deleteJobParams d] := rfl

theorem processDelete_state (dr : Bool) (s : EngineState) (d : FileChangeWithPaths) :
    (processDelete dr s d).2 = purgeForDelete s d := rfl

theorem processCreate_jobs (s : EngineState) (c : FileChangeWithPaths) :
    (processCreate false s c).1 = [createJobParams c] := rfl

theorem processCreate_state (dr : Bool) (s : EngineState) (c : FileChangeWithPaths) :
    (processCreate dr s c).2 = s := rfl

theorem processUpdate_state (dr : Bool) (s : EngineState) (u : FileChangeWithPaths) :
    (processUpdate dr s u).2 = s := by
  simp only [processUpdate]
  split
  · rfl
  · split
    · rfl
    · rfl

theorem mem_processUpdate {dr : Bool} {s : EngineState} {u : FileChangeWithPaths}
    {j : JobParams} (hj : j ∈ (processUpdate dr s u).1) :
    j = { eventType := .UPDATE, localPath := u.localPath, remotePath := u.remotePath,
          contentHash := u.sha1hex, oldLocalPath := none, oldRemotePath := none } := by
  simp only [processUpdate] at hj
  split at hj
  · cases hj
  · split at hj
    · cases hj
    · split at hj
      · cases hj
      · rcases List.mem_cons.mp hj with rfl | hj'
        · rfl
        · cases hj'

theorem mem_remainingDeletes {dm cm : List (Nat × FileChangeWithPaths)}
    {d : FileChangeWithPaths} (h : d ∈ remainingDeletes dm cm) :
    ∃ e ∈ dm, e.2 = d ∧ inoLookup cm e.1 = none := by
  unfold remainingDeletes at h
  obtain ⟨e, he, hed⟩ := List.mem_map.mp h
  have hfe := List.mem_filter.mp he
  exact ⟨e, hfe.1, hed, Option.isNone_iff_eq_none.mp (by simpa using hfe.2)⟩

theorem mem_remainingCreates {dm cm : List (Nat × FileChangeWithPaths)}
    {c : FileChangeWithPaths} (h : c ∈ remainingCreates dm cm) :
    ∃ e ∈ cm, e.2 = c ∧ inoLookup dm e.1 = none := by
  unfold remainingCreates at h
  obtain ⟨e, he, hed⟩ := List.mem_map.mp h
  have hfe := List.mem_filter.mp he
  exact ⟨e, hfe.1, hed, Option.isNone_iff_eq_none.mp (by simpa using hfe.2)⟩

theorem filter_singleton_of_pos {α : Type} (p : α → Bool) (a : α) (h : p a = true) :
    [a].filter p = [a] := by
  rw [List.filter_cons_of_pos h]
  rfl

theorem filter_pair_of_pos {α : Type} (p : α → Bool) (a b : α)
    (ha : p a = true) (hb : p b = true) : [a, b].filter p = [a, b] := by
  rw [List.filter_cons_of_pos ha, List.filter_cons_of_pos hb]
  rfl

/-- Absence of both rows at a path is preserved by every loop body of the
batch transaction (the transaction only ever deletes rows). -/
theorem absent_preserved_processPair (dn : Str → Str) (dr : Bool) (p : Str) :
    ∀ (s : EngineState) (pr : FileChangeWithPaths × FileChangeWithPaths),
      getNodeMapping s p = none ∧ getStoredHash s p = none →
      getNodeMapping (processPair dn dr s pr).2 p = none ∧
        getStoredHash (processPair dn dr s pr).2 p = none := by
  intro s pr h
  rw [processPair_state]
  cases hgm : getNodeMapping s pr.1.localPath with
  | some m2 => exact h
  | none =>
    refine ⟨?_, ?_⟩
    · show getNodeMapping (purgeForDelete s pr.1) p = none
      exact getNodeMapping_none_purgeForDelete s pr.1 p h.1
    · show getStoredHash (purgeForDelete s pr.1) p = none
      exact getStoredHash_none_purgeForDelete s pr.1 p h.2

theorem absent_preserved_processDelete (dr : Bool) (p : Str) :
    ∀ (s : EngineState) (d : FileChangeWithPaths),
      getNodeMapping s p = none ∧ getStoredHash s p = none →
      getNodeMapping (processDelete dr s d).2 p = none ∧
        getStoredHash (processDelete dr s d).2 p = none := by
  intro s d h
  rw [processDelete_state]
  exact ⟨getNodeMapping_none_purgeForDelete s d p h.1,
    getStoredHash_none_purgeForDelete s d p h.2⟩

theorem foldJobs_cons (step : EngineState → α → List JobParams × EngineState)
    (st : EngineState) (x : α) (xs : List α) :
    foldJobs step st (x :: xs) =
      ((step st x).1 ++ (foldJobs step (step st x).2 xs).1,
       (foldJobs step (step st x).2 xs).2) := rfl

theorem nodup_split_ne {α β : Type} (g : α → β) (l1 l2 : List α) (m : α)
    (h : ((l1 ++ m :: l2).map g).Nodup) :
    (∀ x ∈ l1, ¬ g x = g m) ∧ (∀ x ∈ l2, ¬ g x = g m) := by
  rw [List.map_append, List.map_cons] at h
  rcases List.nodup_append.mp h with ⟨_, h2, hdisj⟩
  constructor
  · intro x hx hc
    exact hdisj (List.mem_map_of_mem g hx)
      (by rw [hc]; exact List.mem_cons_self _ _)
  · intro x hx hc
    exact (List.nodup_cons.mp h2).1 (by rw [← hc]; exact List.mem_map_of_mem g hx)

theorem filter_map_localPath_nodup (files : List FileChangeWithPaths)
    (q : FileChangeWithPaths → Bool)
    (h : (files.map FileChangeWithPaths.localPath).Nodup) :
    ((files.filter q).map FileChangeWithPaths.localPath).Nodup :=
  h.sublist ((List.filter_sublist files).map _)

-- ===========================================================================
-- C3
-- ===========================================================================

/-- C3: in one watcher batch (distinct event paths, unique inodes among the
deletes and among the creates), for a delete event `f` and a create event `t`
with the same inode, when a NodeMapping exists for `f.localPath` (and no
other delete in the batch purges an ancestor directory of it), exactly one
job is enqueued for the pair — RENAME when `dirname` agrees, MOVE otherwise —
carrying `oldLocalPath`, `oldRemotePath`, the new `localPath`/`remotePath`
and the create event's content hash; and no DELETE or CREATE job is enqueued
for those two paths. -/
theorem rename_pair_single_job (dn : Str → Str) (files : List FileChangeWithPaths)
    (st : EngineState) (f t : FileChangeWithPaths) (m : NodeMappingRow)
    (hpaths : (files.map FileChangeWithPaths.localPath).Nodup)
    (hdino : ((files.filter (fun x => !x.fexists)).map FileChangeWithPaths.ino).Nodup)
    (hcino : ((files.filter (fun x => x.fexists && x.new)).map
      FileChangeWithPaths.ino).Nodup)
    (hf : f ∈ files) (hfe : f.fexists = false)
    (ht : t ∈ files) (hte : t.fexists = true) (htn : t.new = true)
    (hino : t.ino = f.ino)
    (hm : getNodeMapping st f.localPath = some m)
    (hanc : ∀ d ∈ files, d.fexists = false →
      isPathUnder d.localPath f.localPath = false) :
    (handleFileChangeBatch dn files false st).1.filter
        (fun j => decide (j.localPath = f.localPath ∨ j.localPath = t.localPath)) =
      [{ eventType := if dn f.localPath = dn t.localPath then SyncEventType.RENAME
            else SyncEventType.MOVE,
         localPath := t.localPath, remotePath := t.remotePath,
         contentHash := t.sha1hex, oldLocalPath := some f.localPath,
         oldRemotePath := some f.remotePath }] ∧
    (∀ j ∈ (handleFileChangeBatch dn files false st).1,
      j.eventType = .DELETE ∨ j.eventType = .CREATE →
      ¬ j.localPath = f.localPath ∧ ¬ j.localPath = t.localPath) := by
  have hne : files.isEmpty = false := by
    cases files
    · cases hf
    · rfl
  have pinj : ∀ a ∈ files, ∀ b ∈ files, a.localPath = b.localPath → a = b :=
    fun a ha b hb hab => List.inj_on_of_nodup_map hpaths ha hb hab
  have hfDL : f ∈ files.filter (fun x => !x.fexists) :=
    List.mem_filter.mpr ⟨hf, by rw [hfe]; rfl⟩
  have htCR : t ∈ files.filter (fun x => x.fexists && x.new) :=
    List.mem_filter.mpr ⟨ht, by rw [hte, htn]; rfl⟩
  have hDLsub : ∀ x ∈ files.filter (fun x => !x.fexists),
      x ∈ files ∧ x.fexists = false := by
    intro x hx
    have hx' := List.mem_filter.mp hx
    exact ⟨hx'.1, by simpa using hx'.2⟩
  have hCRsub : ∀ x ∈ files.filter (fun x => x.fexists && x.new),
      x ∈ files ∧ x.fexists = true ∧ x.new = true := by
    intro x hx
    have hx' := List.mem_filter.mp hx
    have hx2 := hx'.2
    simp only [Bool.and_eq_true] at hx2
    exact ⟨hx'.1, hx2.1, hx2.2⟩
  have hUPsub : ∀ x ∈ files.filter (fun x => x.fexists && !x.new),
      x ∈ files ∧ x.fexists = true ∧ x.new = false := by
    intro x hx
    have hx' := List.mem_filter.mp hx
    have hx2 := hx'.2
    simp only [Bool.and_eq_true, Bool.not_eq_true'] at hx2
    exact ⟨hx'.1, hx2.1, hx2.2⟩
  have dinj : ∀ a ∈ files.filter (fun x => !x.fexists),
      ∀ b ∈ files.filter (fun x => !x.fexists), a.ino = b.ino → a = b :=
    fun a ha b hb hab => List.inj_on_of_nodup_map hdino ha hb hab
  have cinj : ∀ a ∈ files.filter (fun x => x.fexists && x.new),
      ∀ b ∈ files.filter (fun x => x.fexists && x.new), a.ino = b.ino → a = b :=
    fun a ha b hb hab => List.inj_on_of_nodup_map hcino ha hb hab
  have hdmEq : buildInoMap (files.filter (fun x => !x.fexists)) =
      (files.filter (fun x => !x.fexists)).map (fun x => (x.ino, x)) :=
    buildInoMap_eq _ hdino
  have hcmEq : buildInoMap (files.filter (fun x => x.fexists && x.new)) =
      (files.filter (fun x => x.fexists && x.new)).map (fun x => (x.ino, x)) :=
    buildInoMap_eq _ hcino
  have hfind : (files.filter (fun x => x.fexists && x.new)).find?
      (fun c => decide (c.ino = f.ino)) = some t :=
    find?_eq_some_of_unique _ htCR (decide_eq_true hino)
      (fun b hb hpb => cinj b hb t htCR (by rw [of_decide_eq_true hpb, hino]))
  have hlookupCR : inoLookup
      (buildInoMap (files.filter (fun x => x.fexists && x.new))) f.ino = some t := by
    rw [hcmEq, inoLookup_map, hfind]
  have hpair : (f, t) ∈ matchRenames
      (buildInoMap (files.filter (fun x => !x.fexists)))
      (buildInoMap (files.filter (fun x => x.fexists && x.new))) := by
    rw [hdmEq]
    refine List.mem_filterMap.mpr ⟨(f.ino, f), List.mem_map_of_mem _ hfDL, ?_⟩
    simp [hlookupCR]
  have hmemRN : ∀ pr ∈ matchRenames
      (buildInoMap (files.filter (fun x => !x.fexists)))
      (buildInoMap (files.filter (fun x => x.fexists && x.new))),
      pr.1 ∈ files.filter (fun x => !x.fexists) ∧
      pr.2 ∈ files.filter (fun x => x.fexists && x.new) ∧ pr.2.ino = pr.1.ino := by
    intro pr hpr
    rw [hdmEq] at hpr
    obtain ⟨e, he, hg⟩ := List.mem_filterMap.mp hpr
    obtain ⟨x, hx, rfl⟩ := List.mem_map.mp he
    rcases Option.map_eq_some'.mp hg with ⟨c, hc, hcc⟩
    rw [hcmEq] at hc
    have hcfacts := inoLookup_some_facts _ _ _ hc
    rw [← hcc]
    exact ⟨hx, hcfacts.1, hcfacts.2⟩
  have hfr : ((matchRenames
      (buildInoMap (files.filter (fun x => !x.fexists)))
      (buildInoMap (files.filter (fun x => x.fexists && x.new)))).map
        (fun pr => pr.1.localPath)).Nodup := by
    have hsub := matchRenames_fst_sublist
      (buildInoMap (files.filter (fun x => !x.fexists)))
      (buildInoMap (files.filter (fun x => x.fexists && x.new)))
    rw [hdmEq] at hsub
    have hsub2 : List.Sublist ((matchRenames
        ((files.filter (fun x => !x.fexists)).map (fun x => (x.ino, x)))
        (buildInoMap (files.filter (fun x => x.fexists && x.new)))).map Prod.fst)
        (files.filter (fun x => !x.fexists)) := by
      simpa [List.map_map, Function.comp_def] using hsub
    have hnod := (filter_map_localPath_nodup files _ hpaths).sublist
      (hsub2.map FileChangeWithPaths.localPath)
    rw [← hdmEq] at hnod
    simpa [List.map_map, Function.comp] using hnod
  obtain ⟨l1, l2, hsplit⟩ := List.append_of_mem hpair
  have hfr' : ((l1 ++ (f, t) :: l2).map (fun pr => pr.1.localPath)).Nodup := by
    rw [← hsplit]; exact hfr
  have hne1 := nodup_split_ne (fun pr => pr.1.localPath) l1 l2 (f, t) hfr'
  have hl1l2RN : ∀ pr, (pr ∈ l1 ∨ pr ∈ l2) → pr ∈ matchRenames
      (buildInoMap (files.filter (fun x => !x.fexists)))
      (buildInoMap (files.filter (fun x => x.fexists && x.new))) := by
    intro pr hpr
    rw [hsplit]
    rcases hpr with h | h
    · exact List.mem_append.mpr (Or.inl h)
    · exact List.mem_append.mpr (Or.inr (List.mem_cons_of_mem _ h))
  have hprfacts : ∀ pr, (pr ∈ l1 ∨ pr ∈ l2) →
      ¬ pr.1.localPath = f.localPath ∧ ¬ pr.1.localPath = t.localPath ∧
      ¬ pr.2.localPath = f.localPath ∧ ¬ pr.2.localPath = t.localPath := by
    intro pr hpr
    obtain ⟨hp1, hp2, hpino⟩ := hmemRN pr (hl1l2RN pr hpr)
    have h1 : ¬ pr.1.localPath = f.localPath := by
      rcases hpr with h | h
      · exact hne1.1 pr h
      · exact hne1.2 pr h
    refine ⟨h1, ?_, ?_, ?_⟩
    · intro hc
      have heq := pinj pr.1 (hDLsub pr.1 hp1).1 t ht hc
      have := (hDLsub pr.1 hp1).2
      rw [heq, hte] at this
      cases this
    · intro hc
      have heq := pinj pr.2 (hCRsub pr.2 hp2).1 f hf hc
      have := (hCRsub pr.2 hp2).2.1
      rw [heq, hfe] at this
      cases this
    · intro hc
      have hpt : pr.2 = t := pinj pr.2 (hCRsub pr.2 hp2).1 t ht hc
      have hpi : pr.1.ino = f.ino := by rw [← hino, ← hpt]; exact hpino.symm
      have := dinj pr.1 hp1 f hfDL hpi
      exact h1 (by rw [this])
  have hpres : getNodeMapping
      (foldJobs (processPair dn false) st l1).2 f.localPath = some m := by
    refine foldJobs_state_invariant (processPair dn false)
      (fun s => getNodeMapping s f.localPath = some m) l1 ?_ st hm
    intro s pr hpr hP
    rw [processPair_state]
    cases hgm : getNodeMapping s pr.1.localPath with
    | some m2 => exact hP
    | none =>
      show getNodeMapping (purgeForDelete s pr.1) f.localPath = some m
      obtain ⟨hp1, _, _⟩ := hmemRN pr (hl1l2RN pr (Or.inl hpr))
      have hfct := hDLsub pr.1 hp1
      rw [getNodeMapping_purgeForDelete s pr.1 f.localPath (hne1.1 pr hpr)
        (hanc pr.1 hfct.1 hfct.2)]
      exact hP
  have hPotherPair : ∀ pr, (pr ∈ l1 ∨ pr ∈ l2) → ∀ s : EngineState,
      ∀ j ∈ (processPair dn false s pr).1,
      (fun j : JobParams => decide (j.localPath = f.localPath ∨
        j.localPath = t.localPath)) j = false := by
    intro pr hpr s j hj
    obtain ⟨h1, h2, h3, h4⟩ := hprfacts pr hpr
    rcases mem_processPair_localPath hj with hlp | hlp
    · exact decide_eq_false (by
        rw [hlp]
        rintro (hc | hc)
        · exact h1 hc
        · exact h2 hc)
    · exact decide_eq_false (by
        rw [hlp]
        rintro (hc | hc)
        · exact h3 hc
        · exact h4 hc)
  have hfiltl1 : ((foldJobs (processPair dn false) st l1).1.filter
      (fun j => decide (j.localPath = f.localPath ∨ j.localPath = t.localPath))) = [] :=
    foldJobs_filter_eq_nil _ _ (fun pr hpr s j hj => hPotherPair pr (Or.inl hpr) s j hj)
  have hfiltl2 : ∀ s : EngineState, ((foldJobs (processPair dn false) s l2).1.filter
      (fun j => decide (j.localPath = f.localPath ∨ j.localPath = t.localPath))) = [] :=
    fun s => foldJobs_filter_eq_nil _ _
      (fun pr hpr s' j hj => hPotherPair pr (Or.inr hpr) s' j hj)
  have hPJ : (processPair dn false (foldJobs (processPair dn false) st l1).2 (f, t)).1 =
      [{ eventType := if dn f.localPath = dn t.localPath then SyncEventType.RENAME
            else SyncEventType.MOVE,
         localPath := t.localPath, remotePath := t.remotePath,
         contentHash := t.sha1hex, oldLocalPath := some f.localPath,
         oldRemotePath := some f.remotePath }] :=
    processPair_jobs_some dn _ (f, t) m hpres
  have hApair : ((processPair dn false (foldJobs (processPair dn false) st l1).2
      (f, t)).1.filter
      (fun j => decide (j.localPath = f.localPath ∨ j.localPath = t.localPath))) =
      [{ eventType := if dn f.localPath = dn t.localPath then SyncEventType.RENAME
            else SyncEventType.MOVE,
         localPath := t.localPath, remotePath := t.remotePath,
         contentHash := t.sha1hex, oldLocalPath := some f.localPath,
         oldRemotePath := some f.remotePath }] := by
    rw [hPJ]
    exact filter_singleton_of_pos _ _ (decide_eq_true (Or.inr rfl))
  have hAfilter : ((foldJobs (processPair dn false) st (matchRenames
      (buildInoMap (files.filter (fun x => !x.fexists)))
      (buildInoMap (files.filter (fun x => x.fexists && x.new))))).1.filter
      (fun j => decide (j.localPath = f.localPath ∨ j.localPath = t.localPath))) =
      [{ eventType := if dn f.localPath = dn t.localPath then SyncEventType.RENAME
            else SyncEventType.MOVE,
         localPath := t.localPath, remotePath := t.remotePath,
         contentHash := t.sha1hex, oldLocalPath := some f.localPath,
         oldRemotePath := some f.remotePath }] := by
    rw [hsplit, foldJobs_append, foldJobs_cons]
    simp only [List.filter_append]
    rw [hfiltl1, hApair, hfiltl2]
    rfl
  have hBfilter : ∀ s : EngineState, ((foldJobs (processDelete false) s
      (remainingDeletes (buildInoMap (files.filter (fun x => !x.fexists)))
        (buildInoMap (files.filter (fun x => x.fexists && x.new))))).1.filter
      (fun j => decide (j.localPath = f.localPath ∨ j.localPath = t.localPath))) = [] := by
    intro s
    apply foldJobs_filter_eq_nil
    intro d hd s' j hj
    obtain ⟨e, he, hed, hnone⟩ := mem_remainingDeletes hd
    rw [hdmEq] at he
    obtain ⟨x, hx, rfl⟩ := List.mem_map.mp he
    have hxd : x = d := hed
    subst hxd
    rw [processDelete_jobs] at hj
    rcases List.mem_cons.mp hj with rfl | hj'
    · apply decide_eq_false
      rintro (hc | hc)
      · have heq : x = f := pinj x (hDLsub x hx).1 f hf hc
        rw [heq] at hnone
        rw [hnone] at hlookupCR
        cases hlookupCR
      · have heq : x = t := pinj x (hDLsub x hx).1 t ht hc
        have := (hDLsub x hx).2
        rw [heq, hte] at this
        cases this
    · cases hj'
  have hCfilter : ∀ s : EngineState, ((foldJobs (processCreate false) s
      (remainingCreates (buildInoMap (files.filter (fun x => !x.fexists)))
        (buildInoMap (files.filter (fun x => x.fexists && x.new))))).1.filter
      (fun j => decide (j.localPath = f.localPath ∨ j.localPath = t.localPath))) = [] := by
    intro s
    apply foldJobs_filter_eq_nil
    intro c hc s' j hj
    obtain ⟨e, he, hed, hnone⟩ := mem_remainingCreates hc
    rw [hcmEq] at he
    obtain ⟨x, hx, rfl⟩ := List.mem_map.mp he
    have hxc : x = c := hed
    subst hxc
    rw [processCreate_jobs] at hj
    rcases List.mem_cons.mp hj with rfl | hj'
    · apply decide_eq_false
      rintro (hcc | hcc)
      · have heq : x = f := pinj x (hCRsub x hx).1 f hf hcc
        have := (hCRsub x hx).2.1
        rw [heq, hfe] at this
        cases this
      · have heq : x = t := pinj x (hCRsub x hx).1 t ht hcc
        rw [hdmEq, inoLookup_map] at hnone
        have hnofind := List.find?_eq_none.mp hnone f hfDL
        rw [heq] at hnofind
        exact hnofind (decide_eq_true hino.symm)
    · cases hj'
  have hDfilter : ∀ s : EngineState, ((foldJobs (processUpdate false) s
      (files.filter (fun x => x.fexists && !x.new))).1.filter
      (fun j => decide (j.localPath = f.localPath ∨ j.localPath = t.localPath))) = [] := by
    intro s
    apply foldJobs_filter_eq_nil
    intro u hu s' j hj
    have hju := mem_processUpdate hj
    obtain ⟨huf, hue, hun⟩ := hUPsub u hu
    rw [hju]
    apply decide_eq_false
    rintro (hc | hc)
    · have heq := pinj u huf f hf hc
      rw [heq, hfe] at hue
      cases hue
    · have heq := pinj u huf t ht hc
      rw [heq, htn] at hun
      cases hun
  have hmain : (handleFileChangeBatch dn files false st).1.filter
      (fun j => decide (j.localPath = f.localPath ∨ j.localPath = t.localPath)) =
      [{ eventType := if dn f.localPath = dn t.localPath then SyncEventType.RENAME
            else SyncEventType.MOVE,
         localPath := t.localPath, remotePath := t.remotePath,
         contentHash := t.sha1hex, oldLocalPath := some f.localPath,
         oldRemotePath := some f.remotePath }] := by
    simp only [handleFileChangeBatch, hne, Bool.false_eq_true, if_false]
    simp only [List.filter_append]
    rw [hAfilter, hBfilter, hCfilter, hDfilter]
    rfl
  refine ⟨hmain, ?_⟩
  intro j hj hev
  constructor
  · intro hc
    have hjf : j ∈ (handleFileChangeBatch dn files false st).1.filter
        (fun j => decide (j.localPath = f.localPath ∨ j.localPath = t.localPath)) :=
      List.mem_filter.mpr ⟨hj, decide_eq_true (Or.inl hc)⟩
    rw [hmain] at hjf
    have hj2 := List.mem_singleton.mp hjf
    rcases hev with h | h <;>
      (rw [hj2] at h
       by_cases hdd : dn f.localPath = dn t.localPath <;> simp [hdd] at h)
  · intro hc
    have hjf : j ∈ (handleFileChangeBatch dn files false st).1.filter
        (fun j => decide (j.localPath = f.localPath ∨ j.localPath = t.localPath)) :=
      List.mem_filter.mpr ⟨hj, decide_eq_true (Or.inr hc)⟩
    rw [hmain] at hjf
    have hj2 := List.mem_singleton.mp hjf
    rcases hev with h | h <;>
      (rw [hj2] at h
       by_cases hdd : dn f.localPath = dn t.localPath <;> simp [hdd] at h)

-- ===========================================================================
-- C6
-- ===========================================================================

/-- C6: in one watcher batch (distinct event paths, unique inodes among the
deletes and among the creates), for a delete event `f` and a create event `t`
matched by inode with no NodeMapping for `f.localPath`, exactly two jobs are
enqueued for the pair — a DELETE for the old `(localPath, remotePath)` and a
CREATE for the new one carrying the create event's content hash — and the
FileHash and NodeMapping rows for the old path are purged from the final
state, including every row under the old path when the deleted entry was a
directory. -/
theorem fallback_delete_create_pair (dn : Str → Str)
    (files : List FileChangeWithPaths) (st : EngineState)
    (f t : FileChangeWithPaths)
    (hpaths : (files.map FileChangeWithPaths.localPath).Nodup)
    (hdino : ((files.filter (fun x => !x.fexists)).map FileChangeWithPaths.ino).Nodup)
    (hcino : ((files.filter (fun x => x.fexists && x.new)).map
      FileChangeWithPaths.ino).Nodup)
    (hf : f ∈ files) (hfe : f.fexists = false)
    (ht : t ∈ files) (hte : t.fexists = true) (htn : t.new = true)
    (hino : t.ino = f.ino)
    (hm0 : getNodeMapping st f.localPath = none) :
    (handleFileChangeBatch dn files false st).1.filter
        (fun j => decide (j.localPath = f.localPath ∨ j.localPath = t.localPath)) =
      [deleteJobParams f, createJobParams t] ∧
    getNodeMapping (handleFileChangeBatch dn files false st).2 f.localPath = none ∧
    getStoredHash (handleFileChangeBatch dn files false st).2 f.localPath = none ∧
    (f.type = .d → ∀ p, isPathUnder f.localPath p = true →
      getNodeMapping (handleFileChangeBatch dn files false st).2 p = none ∧
      getStoredHash (handleFileChangeBatch dn files false st).2 p = none) := by
  have hne : files.isEmpty = false := by
    cases files
    · cases hf
    · rfl
  have pinj : ∀ a ∈ files, ∀ b ∈ files, a.localPath = b.localPath → a = b :=
    fun a ha b hb hab => List.inj_on_of_nodup_map hpaths ha hb hab
  have hfDL : f ∈ files.filter (fun x => !x.fexists) :=
    List.mem_filter.mpr ⟨hf, by rw [hfe]; rfl⟩
  have htCR : t ∈ files.filter (fun x => x.fexists && x.new) :=
    List.mem_filter.mpr ⟨ht, by rw [hte, htn]; rfl⟩
  have hDLsub : ∀ x ∈ files.filter (fun x => !x.fexists),
      x ∈ files ∧ x.fexists = false := by
    intro x hx
    have hx' := List.mem_filter.mp hx
    exact ⟨hx'.1, by simpa using hx'.2⟩
  have hCRsub : ∀ x ∈ files.filter (fun x => x.fexists && x.new),
      x ∈ files ∧ x.fexists = true ∧ x.new = true := by
    intro x hx
    have hx' := List.mem_filter.mp hx
    have hx2 := hx'.2
    simp only [Bool.and_eq_true] at hx2
    exact ⟨hx'.1, hx2.1, hx2.2⟩
  have hUPsub : ∀ x ∈ files.filter (fun x => x.fexists && !x.new),
      x ∈ files ∧ x.fexists = true ∧ x.new = false := by
    intro x hx
    have hx' := List.mem_filter.mp hx
    have hx2 := hx'.2
    simp only [Bool.and_eq_true, Bool.not_eq_true'] at hx2
    exact ⟨hx'.1, hx2.1, hx2.2⟩
  have dinj : ∀ a ∈ files.filter (fun x => !x.fexists),
      ∀ b ∈ files.filter (fun x => !x.fexists), a.ino = b.ino → a = b :=
    fun a ha b hb hab => List.inj_on_of_nodup_map hdino ha hb hab
  have cinj : ∀ a ∈ files.filter (fun x => x.fexists && x.new),
      ∀ b ∈ files.filter (fun x => x.fexists && x.new), a.ino = b.ino → a = b :=
    fun a ha b hb hab => List.inj_on_of_nodup_map hcino ha hb hab
  have hdmEq : buildInoMap (files.filter (fun x => !x.fexists)) =
      (files.filter (fun x => !x.fexists)).map (fun x => (x.ino, x)) :=
    buildInoMap_eq _ hdino
  have hcmEq : buildInoMap (files.filter (fun x => x.fexists && x.new)) =
      (files.filter (fun x => x.fexists && x.new)).map (fun x => (x.ino, x)) :=
    buildInoMap_eq _ hcino
  have hfind : (files.filter (fun x => x.fexists && x.new)).find?
      (fun c => decide (c.ino = f.ino)) = some t :=
    find?_eq_some_of_unique _ htCR (decide_eq_true hino)
      (fun b hb hpb => cinj b hb t htCR (by rw [of_decide_eq_true hpb, hino]))
  have hlookupCR : inoLookup
      (buildInoMap (files.filter (fun x => x.fexists && x.new))) f.ino = some t := by
    rw [hcmEq, inoLookup_map, hfind]
  have hpair : (f, t) ∈ matchRenames
      (buildInoMap (files.filter (fun x => !x.fexists)))
      (buildInoMap (files.filter (fun x => x.fexists && x.new))) := by
    rw [hdmEq]
    refine List.mem_filterMap.mpr ⟨(f.ino, f), List.mem_map_of_mem _ hfDL, ?_⟩
    simp [hlookupCR]
  have hmemRN : ∀ pr ∈ matchRenames
      (buildInoMap (files.filter (fun x => !x.fexists)))
      (buildInoMap (files.filter (fun x => x.fexists && x.new))),
      pr.1 ∈ files.filter (fun x => !x.fexists) ∧
      pr.2 ∈ files.filter (fun x => x.fexists && x.new) ∧ pr.2.ino = pr.1.ino := by
    intro pr hpr
    rw [hdmEq] at hpr
    obtain ⟨e, he, hg⟩ := List.mem_filterMap.mp hpr
    obtain ⟨x, hx, rfl⟩ := List.mem_map.mp he
    rcases Option.map_eq_some'.mp hg with ⟨c, hc, hcc⟩
    rw [hcmEq] at hc
    have hcfacts := inoLookup_some_facts _ _ _ hc
    rw [← hcc]
    exact ⟨hx, hcfacts.1, hcfacts.2⟩
  have hfr : ((matchRenames
      (buildInoMap (files.filter (fun x => !x.fexists)))
      (buildInoMap (files.filter (fun x => x.fexists && x.new)))).map
        (fun pr => pr.1.localPath)).Nodup := by
    have hsub := matchRenames_fst_sublist
      (buildInoMap (files.filter (fun x => !x.fexists)))
      (buildInoMap (files.filter (fun x => x.fexists && x.new)))
    rw [hdmEq] at hsub
    have hsub2 : List.Sublist ((matchRenames
        ((files.filter (fun x => !x.fexists)).map (fun x => (x.ino, x)))
        (buildInoMap (files.filter (fun x => x.fexists && x.new)))).map Prod.fst)
        (files.filter (fun x => !x.fexists)) := by
      simpa [List.map_map, Function.comp_def] using hsub
    have hnod := (filter_map_localPath_nodup files _ hpaths).sublist
      (hsub2.map FileChangeWithPaths.localPath)
    rw [← hdmEq] at hnod
    simpa [List.map_map, Function.comp] using hnod
  obtain ⟨l1, l2, hsplit⟩ := List.append_of_mem hpair
  have hfr' : ((l1 ++ (f, t) :: l2).map (fun pr => pr.1.localPath)).Nodup := by
    rw [← hsplit]; exact hfr
  have hne1 := nodup_split_ne (fun pr => pr.1.localPath) l1 l2 (f, t) hfr'
  have hl1l2RN : ∀ pr, (pr ∈ l1 ∨ pr ∈ l2) → pr ∈ matchRenames
      (buildInoMap (files.filter (fun x => !x.fexists)))
      (buildInoMap (files.filter (fun x => x.fexists && x.new))) := by
    intro pr hpr
    rw [hsplit]
    rcases hpr with h | h
    · exact List.mem_append.mpr (Or.inl h)
    · exact List.mem_append.mpr (Or.inr (List.mem_cons_of_mem _ h))
  have hprfacts : ∀ pr, (pr ∈ l1 ∨ pr ∈ l2) →
      ¬ pr.1.localPath = f.localPath ∧ ¬ pr.1.localPath = t.localPath ∧
      ¬ pr.2.localPath = f.localPath ∧ ¬ pr.2.localPath = t.localPath := by
    intro pr hpr
    obtain ⟨hp1, hp2, hpino⟩ := hmemRN pr (hl1l2RN pr hpr)
    have h1 : ¬ pr.1.localPath = f.localPath := by
      rcases hpr with h | h
      · exact hne1.1 pr h
      · exact hne1.2 pr h
    refine ⟨h1, ?_, ?_, ?_⟩
    · intro hc
      have heq := pinj pr.1 (hDLsub pr.1 hp1).1 t ht hc
      have := (hDLsub pr.1 hp1).2
      rw [heq, hte] at this
      cases this
    · intro hc
      have heq := pinj pr.2 (hCRsub pr.2 hp2).1 f hf hc
      have := (hCRsub pr.2 hp2).2.1
      rw [heq, hfe] at this
      cases this
    · intro hc
      have hpt : pr.2 = t := pinj pr.2 (hCRsub pr.2 hp2).1 t ht hc
      have hpi : pr.1.ino = f.ino := by rw [← hino, ← hpt]; exact hpino.symm
      have := dinj pr.1 hp1 f hfDL hpi
      exact h1 (by rw [this])
  have hs1none : getNodeMapping
      (foldJobs (processPair dn false) st l1).2 f.localPath = none := by
    refine foldJobs_state_invariant (processPair dn false)
      (fun s => getNodeMapping s f.localPath = none) l1 ?_ st hm0
    intro s pr hpr hP
    rw [processPair_state]
    cases hgm : getNodeMapping s pr.1.localPath with
    | some m2 => exact hP
    | none =>
      show getNodeMapping (purgeForDelete s pr.1) f.localPath = none
      exact getNodeMapping_none_purgeForDelete s pr.1 f.localPath hP
  have hPotherPair : ∀ pr, (pr ∈ l1 ∨ pr ∈ l2) → ∀ s : EngineState,
      ∀ j ∈ (processPair dn false s pr).1,
      (fun j : JobParams => decide (j.localPath = f.localPath ∨
        j.localPath = t.localPath)) j = false := by
    intro pr hpr s j hj
    obtain ⟨h1, h2, h3, h4⟩ := hprfacts pr hpr
    rcases mem_processPair_localPath hj with hlp | hlp
    · exact decide_eq_false (by
        rw [hlp]
        rintro (hc | hc)
        · exact h1 hc
        · exact h2 hc)
    · exact decide_eq_false (by
        rw [hlp]
        rintro (hc | hc)
        · exact h3 hc
        · exact h4 hc)
  have hfiltl1 : ((foldJobs (processPair dn false) st l1).1.filter
      (fun j => decide (j.localPath = f.localPath ∨ j.localPath = t.localPath))) = [] :=
    foldJobs_filter_eq_nil _ _ (fun pr hpr s j hj => hPotherPair pr (Or.inl hpr) s j hj)
  have hfiltl2 : ∀ s : EngineState, ((foldJobs (processPair dn false) s l2).1.filter
      (fun j => decide (j.localPath = f.localPath ∨ j.localPath = t.localPath))) = [] :=
    fun s => foldJobs_filter_eq_nil _ _
      (fun pr hpr s' j hj => hPotherPair pr (Or.inr hpr) s' j hj)
  have hs1none' : getNodeMapping
      (foldJobs (processPair dn false) st l1).2 (f, t).1.localPath = none := hs1none
  have hPJ : (processPair dn false (foldJobs (processPair dn false) st l1).2 (f, t)).1 =
      [deleteJobParams f, createJobParams t] :=
    processPair_jobs_none dn _ (f, t) hs1none'
  have hApair : ((processPair dn false (foldJobs (processPair dn false) st l1).2
      (f, t)).1.filter
      (fun j => decide (j.localPath = f.localPath ∨ j.localPath = t.localPath))) =
      [deleteJobParams f, createJobParams t] := by
    rw [hPJ]
    exact filter_pair_of_pos _ _ _ (decide_eq_true (Or.inl rfl))
      (decide_eq_true (Or.inr rfl))
  have hAfilter : ((foldJobs (processPair dn false) st (matchRenames
      (buildInoMap (files.filter (fun x => !x.fexists)))
      (buildInoMap (files.filter (fun x => x.fexists && x.new))))).1.filter
      (fun j => decide (j.localPath = f.localPath ∨ j.localPath = t.localPath))) =
      [deleteJobParams f, createJobParams t] := by
    rw [hsplit, foldJobs_append, foldJobs_cons]
    simp only [List.filter_append]
    rw [hfiltl1, hApair, hfiltl2]
    rfl
  have hBfilter : ∀ s : EngineState, ((foldJobs (processDelete false) s
      (remainingDeletes (buildInoMap (files.filter (fun x => !x.fexists)))
        (buildInoMap (files.filter (fun x => x.fexists && x.new))))).1.filter
      (fun j => decide (j.localPath = f.localPath ∨ j.localPath = t.localPath))) = [] := by
    intro s
    apply foldJobs_filter_eq_nil
    intro d hd s' j hj
    obtain ⟨e, he, hed, hnone⟩ := mem_remainingDeletes hd
    rw [hdmEq] at he
    obtain ⟨x, hx, rfl⟩ := List.mem_map.mp he
    have hxd : x = d := hed
    subst hxd
    rw [processDelete_jobs] at hj
    rcases List.mem_cons.mp hj with rfl | hj'
    · apply decide_eq_false
      rintro (hc | hc)
      · have heq : x = f := pinj x (hDLsub x hx).1 f hf hc
        rw [heq] at hnone
        rw [hnone] at hlookupCR
        cases hlookupCR
      · have heq : x = t := pinj x (hDLsub x hx).1 t ht hc
        have := (hDLsub x hx).2
        rw [heq, hte] at this
        cases this
    · cases hj'
  have hCfilter : ∀ s : EngineState, ((foldJobs (processCreate false) s
      (remainingCreates (buildInoMap (files.filter (fun x => !x.fexists)))
        (buildInoMap (files.filter (fun x => x.fexists && x.new))))).1.filter
      (fun j => decide (j.localPath = f.localPath ∨ j.localPath = t.localPath))) = [] := by
    intro s
    apply foldJobs_filter_eq_nil
    intro c hc s' j hj
    obtain ⟨e, he, hed, hnone⟩ := mem_remainingCreates hc
    rw [hcmEq] at he
    obtain ⟨x, hx, rfl⟩ := List.mem_map.mp he
    have hxc : x = c := hed
    subst hxc
    rw [processCreate_jobs] at hj
    rcases List.mem_cons.mp hj with rfl | hj'
    · apply decide_eq_false
      rintro (hcc | hcc)
      · have heq : x = f := pinj x (hCRsub x hx).1 f hf hcc
        have := (hCRsub x hx).2.1
        rw [heq, hfe] at this
        cases this
      · have heq : x = t := pinj x (hCRsub x hx).1 t ht hcc
        rw [hdmEq, inoLookup_map] at hnone
        have hnofind := List.find?_eq_none.mp hnone f hfDL
        rw [heq] at hnofind
        exact hnofind (decide_eq_true hino.symm)
    · cases hj'
  have hDfilter : ∀ s : EngineState, ((foldJobs (processUpdate false) s
      (files.filter (fun x => x.fexists && !x.new))).1.filter
      (fun j => decide (j.localPath = f.localPath ∨ j.localPath = t.localPath))) = [] := by
    intro s
    apply foldJobs_filter_eq_nil
    intro u hu s' j hj
    have hju := mem_processUpdate hj
    obtain ⟨huf, hue, hun⟩ := hUPsub u hu
    rw [hju]
    apply decide_eq_false
    rintro (hc | hc)
    · have heq := pinj u huf f hf hc
      rw [heq, hfe] at hue
      cases hue
    · have heq := pinj u huf t ht hc
      rw [heq, htn] at hun
      cases hun
  have hmain : (handleFileChangeBatch dn files false st).1.filter
      (fun j => decide (j.localPath = f.localPath ∨ j.localPath = t.localPath)) =
      [deleteJobParams f, createJobParams t] := by
    simp only [handleFileChangeBatch, hne, Bool.false_eq_true, if_false]
    simp only [List.filter_append]
    rw [hAfilter, hBfilter, hCfilter, hDfilter]
    rfl
  have hs2 : (processPair dn false (foldJobs (processPair dn false) st l1).2 (f, t)).2 =
      purgeForDelete (foldJobs (processPair dn false) st l1).2 f := by
    rw [processPair_state, hs1none']
  have hcarry : ∀ p : Str,
      getNodeMapping
        (processPair dn false (foldJobs (processPair dn false) st l1).2 (f, t)).2 p
        = none ∧
      getStoredHash
        (processPair dn false (foldJobs (processPair dn false) st l1).2 (f, t)).2 p
        = none →
      getNodeMapping (handleFileChangeBatch dn files false st).2 p = none ∧
      getStoredHash (handleFileChangeBatch dn files false st).2 p = none := by
    intro p hQ
    have h2 := foldJobs_state_invariant (processPair dn false)
      (fun s => getNodeMapping s p = none ∧ getStoredHash s p = none) l2
      (fun s pr _ h => absent_preserved_processPair dn false p s pr h) _ hQ
    have h3 := foldJobs_state_invariant (processDelete false)
      (fun s => getNodeMapping s p = none ∧ getStoredHash s p = none)
      (remainingDeletes (buildInoMap (files.filter (fun x => !x.fexists)))
        (buildInoMap (files.filter (fun x => x.fexists && x.new))))
      (fun s d _ h => absent_preserved_processDelete false p s d h) _ h2
    have h4 := foldJobs_state_invariant (processCreate false)
      (fun s => getNodeMapping s p = none ∧ getStoredHash s p = none)
      (remainingCreates (buildInoMap (files.filter (fun x => !x.fexists)))
        (buildInoMap (files.filter (fun x => x.fexists && x.new))))
      (fun s c _ h => by rw [processCreate_state]; exact h) _ h3
    have h5 := foldJobs_state_invariant (processUpdate false)
      (fun s => getNodeMapping s p = none ∧ getStoredHash s p = none)
      (files.filter (fun x => x.fexists && !x.new))
      (fun s u _ h => by rw [processUpdate_state]; exact h) _ h4
    have hfin2 : (handleFileChangeBatch dn files false st).2 =
        (foldJobs (processUpdate false)
          (foldJobs (processCreate false)
            (foldJobs (processDelete false)
              (foldJobs (processPair dn false)
                (processPair dn false
                  (foldJobs (processPair dn false) st l1).2 (f, t)).2 l2).2
              (remainingDeletes
                (buildInoMap (files.filter (fun x => !x.fexists)))
                (buildInoMap (files.filter (fun x => x.fexists && x.new))))).2
            (remainingCreates
              (buildInoMap (files.filter (fun x => !x.fexists)))
              (buildInoMap (files.filter (fun x => x.fexists && x.new))))).2
          (files.filter (fun x => x.fexists && !x.new))).2 := by
      simp only [handleFileChangeBatch, hne, Bool.false_eq_true, if_false]
      rw [hsplit, foldJobs_append, foldJobs_cons]
    rw [hfin2]
    exact h5
  refine ⟨hmain, ?_, ?_, ?_⟩
  · exact (hcarry f.localPath (by
      rw [hs2]
      exact ⟨getNodeMapping_purgeForDelete_self _ f,
        getStoredHash_purgeForDelete_self _ f⟩)).1
  · exact (hcarry f.localPath (by
      rw [hs2]
      exact ⟨getNodeMapping_purgeForDelete_self _ f,
        getStoredHash_purgeForDelete_self _ f⟩)).2
  · intro hd p hp
    exact hcarry p (by
      rw [hs2]
      exact ⟨getNodeMapping_purgeForDelete_under _ f hd p hp,
        getStoredHash_purgeForDelete_under _ f hd p hp⟩)

-- ===========================================================================
-- C3 / C6 witnesses
-- ===========================================================================

/-- An abstract `path.dirname` for the demonstrations (constant, so every
pair shares its parent and the RENAME branch fires). -/
def demoDn : Str → Str := fun _ => []

/-- Scenario: `a.txt` disappears and `b.txt` appears with the same inode. -/
def demoRenameFrom : FileChangeWithPaths :=
  { localPath := "/w/a.txt".toList, remotePath := "w/a.txt".toList,
    fexists := false, new := false, type := .f, ino := 42, sha1hex := none }

def demoRenameTo : FileChangeWithPaths :=
  { localPath := "/w/b.txt".toList, remotePath := "w/b.txt".toList,
    fexists := true, new := true, type := .f, ino := 42,
    sha1hex := some ("h1").toList }

def demoMapRow : NodeMappingRow :=
  { nodeUid := "uid-1".toList, parentNodeUid := "p-1".toList, isDirectory := false }

/-- Pre-state with a NodeMapping for `/w/a.txt`. -/
def demoStC3 : EngineState :=
  { fileHashes := [], nodeMappings := [("/w/a.txt".toList, demoMapRow)] }

theorem rename_pair_single_job_witness :
    (handleFileChangeBatch demoDn [demoRenameFrom, demoRenameTo] false demoStC3).1.filter
        (fun j => decide (j.localPath = demoRenameFrom.localPath ∨
          j.localPath = demoRenameTo.localPath)) =
      [{ eventType := SyncEventType.RENAME,
         localPath := demoRenameTo.localPath, remotePath := demoRenameTo.remotePath,
         contentHash := demoRenameTo.sha1hex,
         oldLocalPath := some demoRenameFrom.localPath,
         oldRemotePath := some demoRenameFrom.remotePath }] :=
  (rename_pair_single_job demoDn [demoRenameFrom, demoRenameTo] demoStC3
    demoRenameFrom demoRenameTo demoMapRow (by decide) (by decide) (by decide)
    (by decide) rfl (by decide) rfl rfl rfl (by decide) (by decide)).1

/-- Scenario: `/w/sub1/x` disappears and `/w/sub2/x` appears with the same
inode, with no NodeMapping for the old path. -/
def demoMoveFrom : FileChangeWithPaths :=
  { localPath := "/w/sub1/x".toList, remotePath := "w/sub1/x".toList,
    fexists := false, new := false, type := .f, ino := 7, sha1hex := none }

def demoMoveTo : FileChangeWithPaths :=
  { localPath := "/w/sub2/x".toList, remotePath := "w/sub2/x".toList,
    fexists := true, new := true, type := .f, ino := 7,
    sha1hex := some ("h2").toList }

/-- Pre-state with a stale FileHash for the old path and no NodeMapping. -/
def demoStC6 : EngineState :=
  { fileHashes := [("/w/sub1/x".toList, ("h0").toList)], nodeMappings := [] }

theorem fallback_delete_create_pair_witness :
    (handleFileChangeBatch demoDn [demoMoveFrom, demoMoveTo] false demoStC6).1.filter
        (fun j => decide (j.localPath = demoMoveFrom.localPath ∨
          j.localPath = demoMoveTo.localPath)) =
      [deleteJobParams demoMoveFrom, createJobParams demoMoveTo] ∧
    getStoredHash
      (handleFileChangeBatch demoDn [demoMoveFrom, demoMoveTo] false demoStC6).2
      demoMoveFrom.localPath = none := by
  have H := fallback_delete_create_pair demoDn [demoMoveFrom, demoMoveTo] demoStC6
    demoMoveFrom demoMoveTo (by decide) (by decide) (by decide)
    (by decide) rfl (by decide) rfl rfl rfl (by decide)
  exact ⟨H.1, H.2.2.1⟩

-- ===========================================================================
-- Helper lemmas for C5
-- ===========================================================================

theorem foldl_insertByIno_snd_mem (S : List FileChangeWithPaths) :
    ∀ (l : List FileChangeWithPaths) (acc : List (Nat × FileChangeWithPaths)),
      (∀ e ∈ acc, e.2 ∈ S) → (∀ x ∈ l, x ∈ S) →
      ∀ e ∈ l.foldl insertByIno acc, e.2 ∈ S := by
  intro l
  induction l with
  | nil => intro acc hacc _ e he; exact hacc e he
  | cons x xs ih =>
    intro acc hacc hl e he
    refine ih (insertByIno acc x) ?_ (fun y hy => hl y (List.mem_cons_of_mem _ hy)) e he
    intro a ha
    unfold insertByIno at ha
    split at ha
    · obtain ⟨b, hb, hba⟩ := List.mem_map.mp ha
      by_cases hbx : b.1 = x.ino
      · rw [if_pos hbx] at hba
        rw [← hba]
        exact hl x (List.mem_cons_self _ _)
      · rw [if_neg hbx] at hba
        rw [← hba]
        exact hacc b hb
    · rcases List.mem_append.mp ha with h | h
      · exact hacc a h
      · rcases List.mem_cons.mp h with rfl | h2
        · exact hl x (List.mem_cons_self _ _)
        · cases h2

theorem mem_buildInoMap_snd (files : List FileChangeWithPaths) :
    ∀ e ∈ buildInoMap files, e.2 ∈ files :=
  foldl_insertByIno_snd_mem files files [] (fun e he => absurd he (List.not_mem_nil e))
    (fun _ hx => hx)

theorem inoLookup_some_mem {m : List (Nat × FileChangeWithPaths)} {i : Nat}
    {c : FileChangeWithPaths} (h : inoLookup m i = some c) :
    ∃ row ∈ m, row.2 = c := by
  unfold inoLookup at h
  rcases Option.map_eq_some'.mp h with ⟨row, hrow, hrc⟩
  exact ⟨row, List.mem_of_find?_eq_some hrow, hrc⟩

theorem mem_matchRenames_parts {dm cm : List (Nat × FileChangeWithPaths)}
    {pr : FileChangeWithPaths × FileChangeWithPaths}
    (h : pr ∈ matchRenames dm cm) :
    (∃ e ∈ dm, e.2 = pr.1) ∧ (∃ e ∈ cm, e.2 = pr.2) := by
  obtain ⟨e, he, hg⟩ := List.mem_filterMap.mp h
  rcases Option.map_eq_some'.mp hg with ⟨c, hc, hcc⟩
  obtain ⟨row, hrow, hrc⟩ := inoLookup_some_mem hc
  constructor
  · exact ⟨e, he, by rw [← hcc]⟩
  · exact ⟨row, hrow, by rw [← hcc, hrc]⟩

theorem foldJobs_state_id (step : EngineState → α → List JobParams × EngineState)
    (hid : ∀ s x, (step s x).2 = s) :
    ∀ (l : List α) (st : EngineState), (foldJobs step st l).2 = st := by
  intro l
  induction l with
  | nil => intro st; rfl
  | cons x xs ih =>
    intro st
    rw [foldJobs_cons]
    exact (ih _).trans (hid st x)

theorem processUpdate_jobs_of_skip {s : EngineState} {u : FileChangeWithPaths}
    (ht : ¬ u.type = .d)
    (hsk : ∃ h, getStoredHash s u.localPath = some h ∧ ¬ h = [] ∧ some h = u.sha1hex) :
    (processUpdate false s u).1 = [] := by
  obtain ⟨h, hh, hne, heq⟩ := hsk
  simp only [processUpdate, if_neg ht, hh]
  rw [if_pos (by simp [hne, heq])]

theorem processUpdate_jobs_of_noskip {s : EngineState} {u : FileChangeWithPaths}
    (ht : ¬ u.type = .d)
    (hsk : ¬ ∃ h, getStoredHash s u.localPath = some h ∧ ¬ h = [] ∧
      some h = u.sha1hex) :
    (processUpdate false s u).1 =
      [{ eventType := .UPDATE, localPath := u.localPath, remotePath := u.remotePath,
         contentHash := u.sha1hex, oldLocalPath := none, oldRemotePath := none }] := by
  cases hsh : getStoredHash s u.localPath with
  | none =>
    simp only [processUpdate, if_neg ht, hsh]
    rfl
  | some h =>
    have hcond : (!h.isEmpty && decide (some h = u.sha1hex)) = false := by
      rw [Bool.eq_false_iff]
      intro hc
      rw [Bool.and_eq_true] at hc
      have h1 := hc.1
      simp only [Bool.not_eq_true', List.isEmpty_eq_false] at h1
      exact hsk ⟨h, hsh, h1, of_decide_eq_true hc.2⟩
    simp only [processUpdate, if_neg ht, hsh]
    rw [if_neg (by rw [hcond]; exact Bool.false_ne_true)]
    rfl

-- ===========================================================================
-- C5 : corrected
-- ===========================================================================

/-- A file-update event whose `content.sha1hex` is the empty string, used by
the C5 counterexample. -/
def cexUpdateEvent : FileChangeWithPaths :=
  { localPath := "/w/f".toList, remotePath := "w/f".toList,
    fexists := true, new := false, type := .f, ino := 9,
    sha1hex := some [] }

/-- Pre-state storing the empty string as the hash of `/w/f`. -/
def cexStC5 : EngineState :=
  { fileHashes := [("/w/f".toList, [])], nodeMappings := [] }

/-- C5 counterexample: a stored FileHash exists for the event's path and
equals the event's `content.sha1hex` (both the empty string), yet the batch
enqueues an UPDATE job for the event — `storedHash &&` treats the empty
string as falsy, so the suppression check does not fire. -/
theorem update_empty_hash_enqueues :
    getStoredHash cexStC5 cexUpdateEvent.localPath = some [] ∧
    cexUpdateEvent.sha1hex = some [] ∧
    ¬ ((handleFileChangeBatch demoDn [cexUpdateEvent] false cexStC5).1.filter
        (fun j => decide (j.localPath = cexUpdateEvent.localPath)) = []) := by
  refine ⟨by decide, by decide, by decide⟩

/-- C5 (amended): for a file-update event in a batch with distinct event
paths, in which no delete event purges an ancestor directory of the event's
path: if a stored FileHash exists that is non-empty (JavaScript truthiness of
`storedHash &&`) and equals the event's `content.sha1hex`, no job is
enqueued for the event's path; otherwise exactly one UPDATE job carrying the
new hash is enqueued for it. -/
theorem update_hash_suppression (dn : Str → Str)
    (files : List FileChangeWithPaths) (st : EngineState)
    (e : FileChangeWithPaths)
    (hpaths : (files.map FileChangeWithPaths.localPath).Nodup)
    (he : e ∈ files) (hee : e.fexists = true) (hen : e.new = false)
    (het : e.type = .f)
    (hanc : ∀ d ∈ files, d.fexists = false →
      isPathUnder d.localPath e.localPath = false) :
    ((∃ h, getStoredHash st e.localPath = some h ∧ ¬ h = [] ∧
        some h = e.sha1hex) →
      (handleFileChangeBatch dn files false st).1.filter
        (fun j => decide (j.localPath = e.localPath)) = []) ∧
    ((¬ ∃ h, getStoredHash st e.localPath = some h ∧ ¬ h = [] ∧
        some h = e.sha1hex) →
      (handleFileChangeBatch dn files false st).1.filter
        (fun j => decide (j.localPath = e.localPath)) =
        [{ eventType := .UPDATE, localPath := e.localPath,
           remotePath := e.remotePath, contentHash := e.sha1hex,
           oldLocalPath := none, oldRemotePath := none }]) := by
  have hne : files.isEmpty = false := by
    cases files
    · cases he
    · rfl
  have pinj : ∀ a ∈ files, ∀ b ∈ files, a.localPath = b.localPath → a = b :=
    fun a ha b hb hab => List.inj_on_of_nodup_map hpaths ha hb hab
  have hDLsub : ∀ x ∈ files.filter (fun x => !x.fexists),
      x ∈ files ∧ x.fexists = false := by
    intro x hx
    have hx' := List.mem_filter.mp hx
    exact ⟨hx'.1, by simpa using hx'.2⟩
  have hCRsub : ∀ x ∈ files.filter (fun x => x.fexists && x.new),
      x ∈ files ∧ x.fexists = true ∧ x.new = true := by
    intro x hx
    have hx' := List.mem_filter.mp hx
    have hx2 := hx'.2
    simp only [Bool.and_eq_true] at hx2
    exact ⟨hx'.1, hx2.1, hx2.2⟩
  have hUPsub : ∀ x ∈ files.filter (fun x => x.fexists && !x.new),
      x ∈ files ∧ x.fexists = true ∧ x.new = false := by
    intro x hx
    have hx' := List.mem_filter.mp hx
    have hx2 := hx'.2
    simp only [Bool.and_eq_true, Bool.not_eq_true'] at hx2
    exact ⟨hx'.1, hx2.1, hx2.2⟩
  have hDLne : ∀ x ∈ files.filter (fun x => !x.fexists),
      ¬ x.localPath = e.localPath := by
    intro x hx hc
    have heq := pinj x (hDLsub x hx).1 e he hc
    have := (hDLsub x hx).2
    rw [heq, hee] at this
    cases this
  have hCRne : ∀ x ∈ files.filter (fun x => x.fexists && x.new),
      ¬ x.localPath = e.localPath := by
    intro x hx hc
    have heq := pinj x (hCRsub x hx).1 e he hc
    have := (hCRsub x hx).2.2
    rw [heq, hen] at this
    cases this
  have hRNmem : ∀ pr ∈ matchRenames
      (buildInoMap (files.filter (fun x => !x.fexists)))
      (buildInoMap (files.filter (fun x => x.fexists && x.new))),
      pr.1 ∈ files.filter (fun x => !x.fexists) ∧
      pr.2 ∈ files.filter (fun x => x.fexists && x.new) := by
    intro pr hpr
    obtain ⟨⟨e1, he1, he1p⟩, ⟨e2, he2, he2p⟩⟩ := mem_matchRenames_parts hpr
    constructor
    · rw [← he1p]
      exact mem_buildInoMap_snd _ e1 he1
    · rw [← he2p]
      exact mem_buildInoMap_snd _ e2 he2
  have hAfilter : ((foldJobs (processPair dn false) st (matchRenames
      (buildInoMap (files.filter (fun x => !x.fexists)))
      (buildInoMap (files.filter (fun x => x.fexists && x.new))))).1.filter
      (fun j => decide (j.localPath = e.localPath))) = [] := by
    apply foldJobs_filter_eq_nil
    intro pr hpr s j hj
    obtain ⟨hp1, hp2⟩ := hRNmem pr hpr
    rcases mem_processPair_localPath hj with hlp | hlp
    · exact decide_eq_false (by rw [hlp]; exact hDLne pr.1 hp1)
    · exact decide_eq_false (by rw [hlp]; exact hCRne pr.2 hp2)
  have hBfilter : ∀ s : EngineState, ((foldJobs (processDelete false) s
      (remainingDeletes (buildInoMap (files.filter (fun x => !x.fexists)))
        (buildInoMap (files.filter (fun x => x.fexists && x.new))))).1.filter
      (fun j => decide (j.localPath = e.localPath))) = [] := by
    intro s
    apply foldJobs_filter_eq_nil
    intro d hd s' j hj
    obtain ⟨r, hr, hrd, _⟩ := mem_remainingDeletes hd
    have hdDL : d ∈ files.filter (fun x => !x.fexists) := by
      rw [← hrd]
      exact mem_buildInoMap_snd _ r hr
    rw [processDelete_jobs] at hj
    rcases List.mem_cons.mp hj with rfl | hj'
    · exact decide_eq_false (hDLne d hdDL)
    · cases hj'
  have hCfilter : ∀ s : EngineState, ((foldJobs (processCreate false) s
      (remainingCreates (buildInoMap (files.filter (fun x => !x.fexists)))
        (buildInoMap (files.filter (fun x => x.fexists && x.new))))).1.filter
      (fun j => decide (j.localPath = e.localPath))) = [] := by
    intro s
    apply foldJobs_filter_eq_nil
    intro c hc s' j hj
    obtain ⟨r, hr, hrc, _⟩ := mem_remainingCreates hc
    have hcCR : c ∈ files.filter (fun x => x.fexists && x.new) := by
      rw [← hrc]
      exact mem_buildInoMap_snd _ r hr
    rw [processCreate_jobs] at hj
    rcases List.mem_cons.mp hj with rfl | hj'
    · exact decide_eq_false (hCRne c hcCR)
    · cases hj'
  -- the update list and the position of e in it
  have heUP : e ∈ files.filter (fun x => x.fexists && !x.new) :=
    List.mem_filter.mpr ⟨he, by rw [hee, hen]; rfl⟩
  obtain ⟨u1, u2, hUPs⟩ := List.append_of_mem heUP
  have hUPnodup : ((u1 ++ e :: u2).map FileChangeWithPaths.localPath).Nodup := by
    rw [← hUPs]
    exact filter_map_localPath_nodup files _ hpaths
  have hu12 := nodup_split_ne FileChangeWithPaths.localPath u1 u2 e hUPnodup
  have hUPother : ∀ u, (u ∈ u1 ∨ u ∈ u2) → ∀ s : EngineState,
      ∀ j ∈ (processUpdate false s u).1,
      (fun j : JobParams => decide (j.localPath = e.localPath)) j = false := by
    intro u hu s j hj
    have hju := mem_processUpdate hj
    rw [hju]
    apply decide_eq_false
    intro hc
    rcases hu with h | h
    · exact hu12.1 u h hc
    · exact hu12.2 u h hc
  have hfiltu1 : ∀ s : EngineState, ((foldJobs (processUpdate false) s u1).1.filter
      (fun j => decide (j.localPath = e.localPath))) = [] :=
    fun s => foldJobs_filter_eq_nil _ _
      (fun u hu s' j hj => hUPother u (Or.inl hu) s' j hj)
  have hfiltu2 : ∀ s : EngineState, ((foldJobs (processUpdate false) s u2).1.filter
      (fun j => decide (j.localPath = e.localPath))) = [] :=
    fun s => foldJobs_filter_eq_nil _ _
      (fun u hu s' j hj => hUPother u (Or.inr hu) s' j hj)
  -- the stored hash seen at e's processing step equals the initial one
  have hpresA : getStoredHash (foldJobs (processPair dn false) st (matchRenames
      (buildInoMap (files.filter (fun x => !x.fexists)))
      (buildInoMap (files.filter (fun x => x.fexists && x.new))))).2 e.localPath =
      getStoredHash st e.localPath := by
    refine foldJobs_state_invariant (processPair dn false)
      (fun s => getStoredHash s e.localPath = getStoredHash st e.localPath) _ ?_ st rfl
    intro s pr hpr hP
    rw [processPair_state]
    cases hgm : getNodeMapping s pr.1.localPath with
    | some m2 => exact hP
    | none =>
      show getStoredHash (purgeForDelete s pr.1) e.localPath =
        getStoredHash st e.localPath
      obtain ⟨hp1, _⟩ := hRNmem pr hpr
      have hfct := hDLsub pr.1 hp1
      rw [getStoredHash_purgeForDelete s pr.1 e.localPath (hDLne pr.1 hp1)
        (hanc pr.1 hfct.1 hfct.2)]
      exact hP
  have hpresB : ∀ s : EngineState,
      getStoredHash s e.localPath = getStoredHash st e.localPath →
      getStoredHash (foldJobs (processDelete false) s
        (remainingDeletes (buildInoMap (files.filter (fun x => !x.fexists)))
          (buildInoMap (files.filter (fun x => x.fexists && x.new))))).2 e.localPath =
        getStoredHash st e.localPath := by
    intro s hs
    refine foldJobs_state_invariant (processDelete false)
      (fun s => getStoredHash s e.localPath = getStoredHash st e.localPath) _ ?_ s hs
    intro s' d hd hP
    rw [processDelete_state]
    obtain ⟨r, hr, hrd, _⟩ := mem_remainingDeletes hd
    have hdDL : d ∈ files.filter (fun x => !x.fexists) := by
      rw [← hrd]
      exact mem_buildInoMap_snd _ r hr
    have hfct := hDLsub d hdDL
    rw [getStoredHash_purgeForDelete s' d e.localPath (hDLne d hdDL)
      (hanc d hfct.1 hfct.2)]
    exact hP
  have hCid : ∀ s : EngineState, (foldJobs (processCreate false) s
      (remainingCreates (buildInoMap (files.filter (fun x => !x.fexists)))
        (buildInoMap (files.filter (fun x => x.fexists && x.new))))).2 = s :=
    fun s => foldJobs_state_id _ (fun s' c => processCreate_state false s' c) _ s
  have hU1id : ∀ s : EngineState, (foldJobs (processUpdate false) s u1).2 = s :=
    fun s => foldJobs_state_id _ (fun s' u => processUpdate_state false s' u) _ s
  have hetd : ¬ e.type = .d := by
    rw [het]
    intro hc
    cases hc
  constructor
  · intro hS
    simp only [handleFileChangeBatch, hne, Bool.false_eq_true, if_false]
    simp only [List.filter_append]
    rw [hAfilter, hBfilter, hCfilter]
    rw [hUPs, foldJobs_append, foldJobs_cons]
    simp only [List.filter_append]
    rw [hfiltu1, hfiltu2]
    have hsE : getStoredHash ((foldJobs (processUpdate false)
        (foldJobs (processCreate false)
          (foldJobs (processDelete false)
            (foldJobs (processPair dn false) st (matchRenames
              (buildInoMap (files.filter (fun x => !x.fexists)))
              (buildInoMap (files.filter (fun x => x.fexists && x.new))))).2
            (remainingDeletes (buildInoMap (files.filter (fun x => !x.fexists)))
              (buildInoMap (files.filter (fun x => x.fexists && x.new))))).2
          (remainingCreates (buildInoMap (files.filter (fun x => !x.fexists)))
            (buildInoMap (files.filter (fun x => x.fexists && x.new))))).2 u1).2)
        e.localPath = getStoredHash st e.localPath := by
      rw [hU1id, hCid]
      exact hpresB _ hpresA
    rw [processUpdate_jobs_of_skip hetd (by
      obtain ⟨h, hh, hne2, heq⟩ := hS
      exact ⟨h, by rw [hsE]; exact hh, hne2, heq⟩)]
    rfl
  · intro hS
    simp only [handleFileChangeBatch, hne, Bool.false_eq_true, if_false]
    simp only [List.filter_append]
    rw [hAfilter, hBfilter, hCfilter]
    rw [hUPs, foldJobs_append, foldJobs_cons]
    simp only [List.filter_append]
    rw [hfiltu1, hfiltu2]
    have hsE : getStoredHash ((foldJobs (processUpdate false)
        (foldJobs (processCreate false)
          (foldJobs (processDelete false)
            (foldJobs (processPair dn false) st (matchRenames
              (buildInoMap (files.filter (fun x => !x.fexists)))
              (buildInoMap (files.filter (fun x => x.fexists && x.new))))).2
            (remainingDeletes (buildInoMap (files.filter (fun x => !x.fexists)))
              (buildInoMap (files.filter (fun x => x.fexists && x.new))))).2
          (remainingCreates (buildInoMap (files.filter (fun x => !x.fexists)))
            (buildInoMap (files.filter (fun x => x.fexists && x.new))))).2 u1).2)
        e.localPath = getStoredHash st e.localPath := by
      rw [hU1id, hCid]
      exact hpresB _ hpresA
    rw [processUpdate_jobs_of_noskip hetd (by
      intro hc
      obtain ⟨h, hh, hne2, heq⟩ := hc
      exact hS ⟨h, by rw [← hsE]; exact hh, hne2, heq⟩)]
    have hfs : List.filter (fun j : JobParams => decide (j.localPath = e.localPath))
        [{ eventType := SyncEventType.UPDATE, localPath := e.localPath,
           remotePath := e.remotePath, contentHash := e.sha1hex,
           oldLocalPath := none, oldRemotePath := none }] =
        [{ eventType := SyncEventType.UPDATE, localPath := e.localPath,
           remotePath := e.remotePath, contentHash := e.sha1hex,
           oldLocalPath := none, oldRemotePath := none }] :=
      filter_singleton_of_pos _ _ (decide_eq_true rfl)
    rw [hfs]
    rfl

/-- A file-update event whose hash matches the (non-empty) stored hash. -/
def demoUpdEvent : FileChangeWithPaths :=
  { localPath := "/w/u".toList, remotePath := "w/u".toList,
    fexists := true, new := false, type := .f, ino := 5,
    sha1hex := some "h3".toList }

/-- Pre-state storing hash `h3` for `/w/u`. -/
def demoStC5 : EngineState :=
  { fileHashes := [("/w/u".toList, "h3".toList)], nodeMappings := [] }

/-- C5 witness: the spec's hash-suppression scenario — the stored hash `h3`
is non-empty and equals the event's `content.sha1hex`, so the batch enqueues
no job for the event's path. -/
theorem update_hash_suppression_witness :
    (handleFileChangeBatch demoDn [demoUpdEvent] false demoStC5).1.filter
      (fun j => decide (j.localPath = demoUpdEvent.localPath)) = [] :=
  (update_hash_suppression demoDn [demoUpdEvent] demoStC5 demoUpdEvent
    (by decide) (by decide) (by decide) (by decide) (by decide)
    (by decide)).1 ⟨"h3".toList, rfl, by decide, rfl⟩

end ProtonDriveSync
